import Mathlib

/-!
Verification of the CredTech quantitative pipeline
(feature engineering, Fama-MacBeth fitting, walk-forward validation)
against its natural-language specification.

The pandas/numpy code operates on float64 columns.  We model a cell as an
extended real: a finite real number, one of the two infinities, or NaN
(pandas' missing value).  Rounding and signed zero are abstracted away;
the arithmetic on special values follows IEEE 754 as implemented by numpy.
-/

noncomputable section

open scoped Classical

/-- A numpy/pandas float64 cell: finite real, plus or minus infinity, or NaN
(NaN is pandas' missing-value marker). -/
inductive FVal where
  | fin (x : ℝ)
  | pinf
  | minf
  | nan

namespace FVal

/-- NaN test (pandas isna). -/
def isNan : FVal → Bool
  | nan => true
  | _ => false

/-- Finite test. -/
def isFin : FVal → Bool
  | fin _ => true
  | _ => false

/-- IEEE addition: NaN propagates, opposite infinities give NaN. -/
def add : FVal → FVal → FVal
  | nan, _ => nan
  | _, nan => nan
  | pinf, minf => nan
  | minf, pinf => nan
  | pinf, _ => pinf
  | _, pinf => pinf
  | minf, _ => minf
  | _, minf => minf
  | fin a, fin b => fin (a + b)

/-- IEEE negation. -/
def neg : FVal → FVal
  | nan => nan
  | pinf => minf
  | minf => pinf
  | fin a => fin (-a)

/-- IEEE subtraction. -/
def sub (a b : FVal) : FVal := a.add b.neg

/-- IEEE multiplication: NaN propagates, zero times infinity is NaN. -/
def mul : FVal → FVal → FVal
  | nan, _ => nan
  | _, nan => nan
  | fin a, fin b => fin (a * b)
  | pinf, pinf => pinf
  | pinf, minf => minf
  | minf, pinf => minf
  | minf, minf => pinf
  | pinf, fin b => if 0 < b then pinf else if b < 0 then minf else nan
  | fin a, pinf => if 0 < a then pinf else if a < 0 then minf else nan
  | minf, fin b => if 0 < b then minf else if b < 0 then pinf else nan
  | fin a, minf => if 0 < a then minf else if a < 0 then pinf else nan

/-- IEEE division (only a positive zero is modelled): a nonzero finite
numerator over zero gives a signed infinity, zero over zero gives NaN,
infinity over infinity gives NaN. -/
def div : FVal → FVal → FVal
  | nan, _ => nan
  | _, nan => nan
  | fin a, fin b =>
      if b = 0 then (if 0 < a then pinf else if a < 0 then minf else nan)
      else fin (a / b)
  | fin _, pinf => fin 0
  | fin _, minf => fin 0
  | pinf, pinf => nan
  | pinf, minf => nan
  | minf, pinf => nan
  | minf, minf => nan
  | pinf, fin b => if b < 0 then minf else pinf
  | minf, fin b => if b < 0 then pinf else minf

/-- numpy natural logarithm: log of a negative number or of minus infinity
is NaN, log 0 is minus infinity. -/
def log : FVal → FVal
  | nan => nan
  | pinf => pinf
  | minf => nan
  | fin x => if 0 < x then fin (Real.log x) else if x = 0 then minf else nan

/-- numpy exponential. -/
def exp : FVal → FVal
  | nan => nan
  | pinf => pinf
  | minf => fin 0
  | fin x => fin (Real.exp x)

/-- numpy square root: NaN on negative inputs. -/
def sqrt : FVal → FVal
  | nan => nan
  | pinf => pinf
  | minf => nan
  | fin x => if 0 ≤ x then fin (Real.sqrt x) else nan

/-- The underlying real of a finite value (junk elsewhere). -/
def toReal : FVal → ℝ
  | fin x => x
  | _ => 0

/-- pandas fillna with a constant. -/
def fillna (c : ℝ) : FVal → FVal
  | nan => fin c
  | v => v

/-- pandas Series.replace(0, nan) applied to one cell. -/
def replaceZeroWithNan (v : FVal) : FVal :=
  if v = fin 0 then nan else v

/-- Strictly-positive test as evaluated by a pandas boolean mask
(NaN compares false). -/
def gtZeroB : FVal → Bool
  | fin x => if 0 < x then true else false
  | pinf => true
  | _ => false

/-- Comparison order used when sorting cells for quantiles: minus infinity
first, then finite values by their real order, then plus infinity, with NaN
sorting last (as numpy does). -/
def fle : FVal → FVal → Prop
  | _, nan => True
  | nan, _ => False
  | minf, _ => True
  | _, minf => False
  | _, pinf => True
  | pinf, _ => False
  | fin a, fin b => a ≤ b

instance : IsRefl FVal fle where
  refl a := by cases a <;> simp [fle]

instance : IsTotal FVal fle where
  total a b := by
    cases a <;> cases b <;> simp [fle]
    exact le_total _ _

instance : IsTrans FVal fle where
  trans a b c hab hbc := by
    cases a <;> cases b <;> cases c <;> simp_all [fle]
    exact le_trans hab hbc

instance : IsAntisymm FVal fle where
  antisymm a b hab hba := by
    cases a <;> cases b <;> simp_all [fle]
    exact le_antisymm hab hba

/-- pandas max with a bound, where a NaN bound imposes no constraint. -/
def lowerBound (b v : FVal) : FVal :=
  if b.isNan = true ∨ fle b v then v else b

/-- pandas min with a bound, where a NaN bound imposes no constraint. -/
def upperBound (b v : FVal) : FVal :=
  if b.isNan = true ∨ fle v b then v else b

/-- pandas Series.clip(lower, upper) on one cell: NaN cells stay NaN,
NaN bounds are ignored. -/
def clip (lo hi v : FVal) : FVal :=
  if v.isNan = true then nan else upperBound hi (lowerBound lo v)

end FVal

/-! ## Tables

A pandas DataFrame is modelled as the 'symbol' identifier column together
with named numeric columns of equal length (row-aligned lists of cells).
-/

/-- One numeric pandas column. -/
abbrev Col := List FVal

/-- A pandas DataFrame: the 'symbol' identifier column plus named numeric
columns in their left-to-right order. -/
structure DF where
  syms : List String
  cols : List (String × Col)

namespace DF

/-- Column lookup (df[name] when the column exists). -/
def getCol? (df : DF) (n : String) : Option Col :=
  (df.cols.find? (fun p => p.1 == n)).map (fun p => p.2)

/-- Column lookup defaulting to the empty column. -/
def getColD (df : DF) (n : String) : Col := (df.getCol? n).getD []

/-- Membership test (name in df.columns). -/
def hasCol (df : DF) (n : String) : Bool := (df.getCol? n).isSome

/-- Number of rows. -/
def nrows (df : DF) : ℕ := df.syms.length

/-- Column assignment df[name] = v: replaces the column in place when it
exists, otherwise appends it on the right (pandas setitem semantics). -/
def setCol (df : DF) (n : String) (v : Col) : DF :=
  if df.cols.any (fun p => p.1 == n) then
    ⟨df.syms, df.cols.map (fun p => if p.1 == n then (n, v) else p)⟩
  else ⟨df.syms, df.cols ++ [(n, v)]⟩

/-- One cell, NaN when the column or the row is absent. -/
def getCell (df : DF) (n : String) (i : ℕ) : FVal :=
  (df.getColD n).getD i FVal.nan

end DF

/-- Element-wise combination of two columns (numpy broadcasting over
row-aligned columns). -/
def colZip (f : FVal → FVal → FVal) (xs ys : Col) : Col := List.zipWith f xs ys

/-- Element-wise map over a column. -/
def colMap (f : FVal → FVal) (xs : Col) : Col := List.map f xs

/-- Helper for groupby('symbol').pct_change: walks the rows keeping the
last seen value per symbol; a row with no predecessor in its group gets
NaN, otherwise current/previous - 1. -/
def pctChangeAux : List (String × FVal) → List (String × FVal) → Col
  | _, [] => []
  | seen, (s, v) :: rest =>
      (match seen.find? (fun p => p.1 == s) with
       | none => FVal.nan
       | some p => (v.div p.2).sub (FVal.fin 1)) :: pctChangeAux ((s, v) :: seen) rest

/-- groupby('symbol')[col].pct_change(periods=1) over row-aligned symbol
and value columns. -/
def groupPctChange (syms : List String) (vals : Col) : Col :=
  pctChangeAux [] (syms.zip vals)

/-! ## Feature engineering (AcademicFeatureEngineer) -/

/-- The required_fields list of calculate_naive_distance_to_default. -/
def requiredDTDFields : List String :=
  ["equity_value", "debt_value", "equity_volatility", "stock_return"]

/-- The naive_sigma_v column,
(E/(E+F)) * sigma_E + (F/(E+F)) * (0.05 + 0.25 * sigma_E), element-wise. -/
def sigmaVCol (E F sigmaE : Col) : Col :=
  colZip FVal.add
    (colZip FVal.mul (colZip FVal.div E (colZip FVal.add E F)) sigmaE)
    (colZip FVal.mul (colZip FVal.div F (colZip FVal.add E F))
      (colMap (fun s => (FVal.fin 0.05).add ((FVal.fin 0.25).mul s)) sigmaE))

/-- The naive_dtd column,
(log((E+F)/F) + r - 0.5 * sigma_v^2 * T) / (sigma_v * sqrt T) with T = 1,
element-wise. -/
def dtdColOf (E F sigmaE r : Col) : Col :=
  colZip FVal.div
    (colZip FVal.sub
      (colZip FVal.add (colMap FVal.log (colZip FVal.div (colZip FVal.add E F) F)) r)
      (colMap (fun s => ((FVal.fin 0.5).mul (s.mul s)).mul (FVal.fin 1))
        (sigmaVCol E F sigmaE)))
    (colMap (fun s => s.mul ((FVal.fin 1).sqrt)) (sigmaVCol E F sigmaE))

/-- Shallow embedding of
AcademicFeatureEngineer.calculate_naive_distance_to_default: if any
required field is absent, both output columns are assigned the scalar NaN
(broadcast over all rows); otherwise the naive_sigma_v column is assigned
and then the naive_dtd column computed from it. -/
def calculate_naive_distance_to_default (df : DF) : DF :=
  if requiredDTDFields.all (fun n => df.hasCol n) then
    (df.setCol "naive_sigma_v"
        (sigmaVCol (df.getColD "equity_value") (df.getColD "debt_value")
          (df.getColD "equity_volatility"))).setCol "naive_dtd"
      (dtdColOf (df.getColD "equity_value") (df.getColD "debt_value")
        (df.getColD "equity_volatility") (df.getColD "stock_return"))
  else
    (df.setCol "naive_dtd" (List.replicate df.nrows FVal.nan)).setCol
      "naive_sigma_v" (List.replicate df.nrows FVal.nan)

/-- Step 1 of create_accounting_features:
roa = (net_income / total_assets) * 100, if both operands are present. -/
def accRoaStep (df : DF) : DF :=
  if df.hasCol "net_income" && df.hasCol "total_assets" then
    df.setCol "roa"
      (colMap (fun v => v.mul (FVal.fin 100))
        (colZip FVal.div (df.getColD "net_income") (df.getColD "total_assets")))
  else df

/-- Step 2 of create_accounting_features: revenue_growth = per-symbol
pct_change of total_revenue times 100, if total_revenue is present. -/
def accRevStep (df : DF) : DF :=
  if df.hasCol "total_revenue" then
    df.setCol "revenue_growth"
      (colMap (fun v => v.mul (FVal.fin 100))
        (groupPctChange df.syms (df.getColD "total_revenue")))
  else df

/-- Step 3 of create_accounting_features:
leverage = total_debt / total_assets, if both operands are present. -/
def accLevStep (df : DF) : DF :=
  if df.hasCol "total_debt" && df.hasCol "total_assets" then
    df.setCol "leverage"
      (colZip FVal.div (df.getColD "total_debt") (df.getColD "total_assets"))
  else df

/-- Step 4 of create_accounting_features: retained earnings over total
assets, if both operands are present. -/
def accRetStep (df : DF) : DF :=
  if df.hasCol "retained_earnings" && df.hasCol "total_assets" then
    df.setCol "retained_earnings_ratio"
      (colZip FVal.div (df.getColD "retained_earnings") (df.getColD "total_assets"))
  else df

/-- Step 5 of create_accounting_features: per-symbol net income growth
normalized by total assets, if both operands are present. -/
def accNigStep (df : DF) : DF :=
  if df.hasCol "net_income" && df.hasCol "total_assets" then
    df.setCol "net_income_growth_normalized"
      (colZip FVal.div (groupPctChange df.syms (df.getColD "net_income"))
        (df.getColD "total_assets"))
  else df

/-- Shallow embedding of
AcademicFeatureEngineer.create_accounting_features: each derived column is
assigned only when its operand columns are present; the divisions carry no
zero-guard. -/
def create_accounting_features (df : DF) : DF :=
  accNigStep (accRetStep (accLevStep (accRevStep (accRoaStep df))))

/-- The default exclude_cols of winsorize_variables. -/
def winsorizeExclude : List String := ["symbol", "date", "company", "sector", "industry"]

/-- The non-NaN cells of a column (pandas quantile skips NaN). -/
def nonNanCells (xs : Col) : Col := xs.filter (fun v => !v.isNan)

/-- pandas Series.quantile with the default linear interpolation, applied
to an already NaN-free column: at position q*(n-1) of the sorted cells,
interpolating between the neighbouring order statistics. -/
def quantileF (q : ℝ) (xs : Col) : FVal :=
  match xs with
  | [] => FVal.nan
  | _ :: _ =>
    let s := List.insertionSort FVal.fle xs
    let h : ℝ := q * ((xs.length : ℝ) - 1)
    let lo := s.getD ⌊h⌋₊ FVal.nan
    let hi := s.getD ⌈h⌉₊ FVal.nan
    lo.add ((hi.sub lo).mul (FVal.fin (h - (⌊h⌋₊ : ℝ))))

/-- One column of winsorize_variables: clip at the level and 1-level
empirical quantiles of the column's non-NaN cells. -/
def winsorizeCol (level : ℝ) (xs : Col) : Col :=
  let base := nonNanCells xs
  let lo := quantileF level base
  let hi := quantileF (1 - level) base
  xs.map (FVal.clip lo hi)

/-- Shallow embedding of AcademicFeatureEngineer.winsorize_variables with
the default exclude_cols: every numeric column not excluded is clipped at
its own [level, 1-level] quantiles, computed over the whole column. -/
def winsorize_variables (level : ℝ) (df : DF) : DF :=
  ⟨df.syms,
   df.cols.map (fun p =>
     if winsorizeExclude.contains p.1 then p else (p.1, winsorizeCol level p.2))⟩

/-- A pandas Series with its integer index labels. -/
abbrev Series := List (ℕ × FVal)

/-- Shallow embedding of
AcademicFeatureEngineer.transform_target_variable: replace exact zeros by
NaN, keep only the entries whose value compares strictly positive (NaN
compares false, so NaN, zero and negative entries are removed from the
series, shortening it), then take the natural log of what remains. -/
def transform_target_variable (s : Series) : Series :=
  let replaced := s.map (fun p => (p.1, FVal.replaceZeroWithNan p.2))
  let positive := replaced.filter (fun p => p.2.gtZeroB)
  positive.map (fun p => (p.1, p.2.log))

/-- Step 1 of create_interaction_features: roa times leverage, only when
both columns are present. -/
def interRoaLevStep (df : DF) : DF :=
  if df.hasCol "roa" && df.hasCol "leverage" then
    df.setCol "roa_leverage_interaction"
      (colZip FVal.mul (df.getColD "roa") (df.getColD "leverage"))
  else df

/-- Step 2 of create_interaction_features: revenue growth times market
volatility, only when both columns are present. -/
def interGrowthVolStep (df : DF) : DF :=
  if df.hasCol "revenue_growth" && df.hasCol "equity_volatility_100d" then
    df.setCol "growth_volatility_interaction"
      (colZip FVal.mul (df.getColD "revenue_growth") (df.getColD "equity_volatility_100d"))
  else df

/-- Step 3 of create_interaction_features: log market capitalization, only
when market_cap is present. -/
def interLogMcapStep (df : DF) : DF :=
  if df.hasCol "market_cap" then
    df.setCol "log_market_cap" (colMap FVal.log (df.getColD "market_cap"))
  else df

/-- Shallow embedding of
AcademicFeatureEngineer.create_interaction_features: each interaction
column is assigned only when both operand columns are present. -/
def create_interaction_features (df : DF) : DF :=
  interLogMcapStep (interGrowthVolStep (interRoaLevStep df))

/-- Row-order comparison for df.sort_values(['symbol', 'date']). -/
def symDateLe (a b : String × FVal) : Prop :=
  a.1 < b.1 ∨ (a.1 = b.1 ∧ FVal.fle a.2 b.2)

/-- df.sort_values(['symbol', 'date']): permute the rows of every column by
the sorted order of the (symbol, date) keys. -/
def sortValuesSymbolDate (df : DF) : DF :=
  let dateCol := df.getColD "date"
  let key : ℕ → String × FVal := fun i => (df.syms.getD i "", dateCol.getD i FVal.nan)
  let idxs := List.insertionSort (fun i j => symDateLe (key i) (key j)) (List.range df.nrows)
  ⟨idxs.map (fun i => df.syms.getD i ""),
   df.cols.map (fun p => (p.1, idxs.map (fun i => p.2.getD i FVal.nan)))⟩

/-- Date step of prepare_data_for_engineering: ensure a date column
(datetime.now() when absent, modelled by the parameter now); to_datetime
on an existing date column is modelled as the identity. -/
def prepDateStep (now : ℝ) (df : DF) : DF :=
  if df.hasCol "date" then df.setCol "date" (df.getColD "date")
  else df.setCol "date" (List.replicate df.nrows (FVal.fin now))

/-- Leverage step of prepare_data_for_engineering.  The source reads
df['total_debt'] and df['total_assets'] unguarded, so when either column
is absent the subscript raises KeyError: modelled as none. -/
def prepLeverageStep (df : DF) : Option DF :=
  if !df.hasCol "leverage" then
    if df.hasCol "total_debt" && df.hasCol "total_assets" then
      let t := df.setCol "leverage"
        (colZip FVal.div (df.getColD "total_debt") (df.getColD "total_assets"))
      some (t.setCol "leverage" (colMap (FVal.fillna 0) (t.getColD "leverage")))
    else none
  else some df

def prepCurrentStep (df : DF) : DF :=
  if !df.hasCol "current_ratio" && df.hasCol "current_assets" &&
      df.hasCol "current_liabilities" then
    let t := df.setCol "current_ratio"
      (colZip FVal.div (df.getColD "current_assets") (df.getColD "current_liabilities"))
    t.setCol "current_ratio" (colMap (FVal.fillna 1) (t.getColD "current_ratio"))
  else df

/-- Roa step of prepare_data_for_engineering.  When the branch runs, the
source reads df['net_income'] and df['total_assets'] unguarded, so a
missing operand column raises KeyError: modelled as none. -/
def prepRoaStep (df : DF) : Option DF :=
  if !df.hasCol "roa" || (df.getColD "roa").all (fun v => v.isNan) then
    if df.hasCol "net_income" && df.hasCol "total_assets" then
      let t := df.setCol "roa"
        (colMap (fun v => v.mul (FVal.fin 100))
          (colZip FVal.div (df.getColD "net_income") (df.getColD "total_assets")))
      some (t.setCol "roa" (colMap (FVal.fillna 0) (t.getColD "roa")))
    else none
  else some df

/-- The condition of the revenue_growth branch, the only branch that
rebinds the df local (df = df.sort_values(...)). -/
def prepRebindCond (df : DF) : Bool :=
  !df.hasCol "revenue_growth" || (df.getColD "revenue_growth").all (fun v => v.isNan)

/-- Revenue-growth step of prepare_data_for_engineering.  When the branch
runs, df.sort_values(['symbol', 'date']) raises KeyError if date is
absent, and df.groupby('symbol')['total_revenue'] raises KeyError if
total_revenue is absent (the symbol column always exists in this model):
both modelled as none. -/
def prepRevStep (df : DF) : Option DF :=
  if prepRebindCond df then
    if df.hasCol "date" && df.hasCol "total_revenue" then
      let t0 := sortValuesSymbolDate df
      let t := t0.setCol "revenue_growth"
        (colMap (fun v => v.mul (FVal.fin 100))
          (groupPctChange t0.syms (t0.getColD "total_revenue")))
      some (t.setCol "revenue_growth" (colMap (FVal.fillna 0) (t.getColD "revenue_growth")))
    else none
  else some df

def prepEquityStep (df : DF) : DF :=
  if !df.hasCol "equity_value" then
    df.setCol "equity_value"
      (if df.hasCol "equity" then df.getColD "equity"
       else colZip FVal.sub
         ((df.getCol? "total_assets").getD (List.replicate df.nrows (FVal.fin 0)))
         ((df.getCol? "total_liabilities").getD (List.replicate df.nrows (FVal.fin 0))))
  else df

def prepDebtStep (df : DF) : DF :=
  if !df.hasCol "debt_value" then
    df.setCol "debt_value"
      (if df.hasCol "total_debt" then df.getColD "total_debt"
       else (df.getCol? "total_liabilities").getD (List.replicate df.nrows (FVal.fin 0)))
  else df

/-- df[numeric_columns] = df[numeric_columns].fillna(0): the source
selects only float64/int64 columns, so the date column (datetime after
the date step, the only non-numeric column in this model) is left
untouched. -/
def prepFillStep (df : DF) : DF :=
  ⟨df.syms, df.cols.map (fun p =>
    if p.1 == "date" then p else (p.1, colMap (FVal.fillna 0) p.2))⟩

/-- Shallow embedding of academic_features.prepare_data_for_engineering.
The Python function assigns derived columns into the very DataFrame it
received (it takes no copy), so the embedding returns
(state of the caller's table after the call, returned table or none on a
KeyError raised by a step).  When a step raises, the caller's table is
left in the state the preceding steps produced (the raising assignment
itself never lands).  The binding is broken only by the
df = df.sort_values(...) line inside the revenue_growth branch: from that
point on the writes go to a fresh table and the caller's table no longer
sees them, so the caller is left with the table as of the roa step. -/
def prepare_data_for_engineering (now : ℝ) (df0 : DF) : DF × Option DF :=
  let d1 := prepDateStep now df0
  match prepLeverageStep d1 with
  | none => (d1, none)
  | some d2 =>
    let d3 := prepCurrentStep d2
    match prepRoaStep d3 with
    | none => (d3, none)
    | some d4 =>
      match prepRevStep d4 with
      | none => (d4, none)
      | some d5 =>
        let d8 := prepFillStep (prepDebtStep (prepEquityStep d5))
        (if prepRebindCond d4 then d4 else d8, some d8)

/-! ## Call-state wrappers for the copy-discipline claims

Each AcademicFeatureEngineer method starts with df_processed = df.copy()
and writes only into the copy, so the caller's table after the call is the
unchanged argument.  Each wrapper returns
(state of the caller's table after the call, returned table). -/

/-- calculate_naive_distance_to_default called on a table the caller still
holds: the method copies first, so the argument is untouched. -/
def calculate_naive_distance_to_default_run (df : DF) : DF × DF :=
  (df, calculate_naive_distance_to_default df)

/-- create_accounting_features copies first, so the argument is
untouched. -/
def create_accounting_features_run (df : DF) : DF × DF :=
  (df, create_accounting_features df)

/-- winsorize_variables copies first, so the argument is untouched. -/
def winsorize_variables_run (level : ℝ) (df : DF) : DF × DF :=
  (df, winsorize_variables level df)

/-- create_interaction_features copies first, so the argument is
untouched. -/
def create_interaction_features_run (df : DF) : DF × DF :=
  (df, create_interaction_features df)

/-- transform_target_variable builds new Series objects (replace and the
boolean mask both allocate), so the argument Series is untouched. -/
def transform_target_variable_run (s : Series) : Series × Series :=
  (s, transform_target_variable s)

/-! ## Fama-MacBeth (CDSPredictionModel.fit_fama_macbeth) -/

/-- Helper for pandas unique: keep the first occurrence of each value, in
order of first appearance. -/
def uniqueFirstAux (seen : List ℕ) : List ℕ → List ℕ
  | [] => []
  | a :: t =>
      if seen.contains a then uniqueFirstAux seen t
      else a :: uniqueFirstAux (a :: seen) t

/-- pandas Series.unique: distinct values in order of first appearance. -/
def uniqueFirst (l : List ℕ) : List ℕ := uniqueFirstAux [] l

/-- One row of the regression panel: a time-period label, the feature
cells in a fixed column order, and the target cell. -/
structure FMRow where
  time : ℕ
  feats : List FVal
  target : FVal

/-- First stage of fit_fama_macbeth: for each distinct period in order of
first appearance, skip when the period has fewer than 10 rows; X is built
from the rows with no missing feature (dropna over the feature columns), y
from the rows with non-missing target; the cross-sectional fit runs only
when len X = len y and len X > k (k = number of features); a failing fit
(ols returns none, the try/except) is skipped.  ols abstracts
sm.OLS(y, add_constant(X)).fit().params as
(intercept, feature coefficients). -/
def famaMacbethCoeffs (ols : List (List ℝ) → List ℝ → Option (FVal × List FVal))
    (k : ℕ) (panel : List FMRow) : List (ℕ × FVal × List FVal) :=
  (uniqueFirst (panel.map FMRow.time)).filterMap (fun t =>
    let pdata := panel.filter (fun r => r.time == t)
    if pdata.length < 10 then none
    else
      let XRows := pdata.filter (fun r => r.feats.all (fun v => !v.isNan))
      let X := XRows.map (fun r => r.feats.map FVal.toReal)
      let y := (pdata.filter (fun r => !r.target.isNan)).map (fun r => r.target.toReal)
      if X.length = y.length ∧ k < X.length then
        (ols X y).map (fun c => (t, c.1, c.2))
      else none)

/-- Arithmetic mean of a list (pandas Series.mean). -/
def sampleMean (l : List ℝ) : ℝ := l.sum / l.length

/-- pandas Series.std(): sample standard deviation with ddof = 1. -/
def sampleStd (l : List ℝ) : ℝ :=
  Real.sqrt ((l.map (fun x => (x - sampleMean l) ^ 2)).sum / ((l.length : ℝ) - 1))

/-- The per-feature summary emitted by fit_fama_macbeth. -/
structure FMStats where
  coefficient : ℝ
  std_error : ℝ
  t_statistic : ℝ
  p_value : ℝ
  observations : ℕ

/-- The time-series aggregation fit_fama_macbeth applies to one feature's
usable per-period coefficients; tcdf abstracts scipy.stats.t.cdf
(degrees of freedom, point). -/
def famaMacbethAggregate (tcdf : ℕ → ℝ → ℝ) (coeffs : List ℝ) : FMStats :=
  let n := coeffs.length
  let m := sampleMean coeffs
  let sd := sampleStd coeffs
  let t := m / (sd / Real.sqrt n)
  { coefficient := m
    std_error := sd / Real.sqrt n
    t_statistic := t
    p_value := 2 * (1 - tcdf (n - 1) |t|)
    observations := n }

/-- The usable per-period coefficients of column j (j = 0 the intercept,
j = i + 1 feature i): the non-NaN entries of that column of the per-period
coefficient table (a short coefficient vector reads as NaN, like a missing
DataFrame cell feeding the dropna). -/
def usableCoeffs (coeffs : List (ℕ × FVal × List FVal)) (j : ℕ) : List ℝ :=
  coeffs.filterMap (fun c =>
    let v := if j = 0 then c.2.1 else (c.2.2).getD (j - 1) FVal.nan
    if v.isNan then none else some v.toReal)

/-- Shallow embedding of CDSPredictionModel.fit_fama_macbeth: entry j of
the result (0 = intercept, i + 1 = feature i) carries the aggregate
statistics of that column's usable per-period coefficients, and is absent
(none) when fewer than two periods produced the coefficient. -/
def fit_fama_macbeth (ols : List (List ℝ) → List ℝ → Option (FVal × List FVal))
    (tcdf : ℕ → ℝ → ℝ) (k : ℕ) (panel : List FMRow) : List (Option FMStats) :=
  let coeffs := famaMacbethCoeffs ols k panel
  (List.range (k + 1)).map (fun j =>
    let cj := usableCoeffs coeffs j
    if 1 < cj.length then some (famaMacbethAggregate tcdf cj) else none)

/-! ## Walk-forward validation (ModelValidation.time_series_split_validation)

Only the time column matters to the window structure, so a panel row is
its date, modelled as a whole number of years (DateOffset(years=n) is
+ n).  A returned triple is a fitted window
(window start, train rows, test rows); windows failing the row-count
condition are skipped (no fit).  The further len(X_test) = len(y_test)
check only gates metric collection after the fit and is not modelled. -/

/-- The while-loop of time_series_split_validation, with enough fuel for
every iteration: at each current date, train is every row strictly before
current and test the rows in [current, current + test_years); the window
is fitted only when train has more than 100 rows and test more than 20;
current then advances by one year. -/
def splitLoop (times : List ℤ) (testYears : ℤ) (mx : ℤ) :
    ℕ → ℤ → List (ℤ × List ℤ × List ℤ)
  | 0, _ => []
  | fuel + 1, current =>
    if current + testYears ≤ mx then
      (if 100 < (times.filter (fun t => t < current)).length ∧
          20 < (times.filter (fun t => current ≤ t ∧ t < current + testYears)).length then
        [(current, times.filter (fun t => t < current),
          times.filter (fun t => current ≤ t ∧ t < current + testYears))]
      else []) ++ splitLoop times testYears mx fuel (current + 1)
    else []

/-- Shallow embedding of the window loop of
ModelValidation.time_series_split_validation: current starts at
min + train_years and the loop runs while current + test_years <= max. -/
def time_series_split_validation (times : List ℤ) (trainYears testYears : ℤ) :
    List (ℤ × List ℤ × List ℤ) :=
  match times.min?, times.max? with
  | some mn, some mx =>
      splitLoop times testYears mx
        ((mx - (mn + trainYears) - testYears).toNat + 1) (mn + trainYears)
  | _, _ => []

/-! ## Row-level forms of the distance-to-default columns -/

/-- The naive_sigma_v cell computed from one row's equity value, debt value
and equity volatility. -/
def sigmaRow (e f s : FVal) : FVal :=
  ((e.div (e.add f)).mul s).add
    ((f.div (e.add f)).mul ((FVal.fin 0.05).add ((FVal.fin 0.25).mul s)))

/-- The naive_dtd cell computed from one row's equity value, debt value,
equity volatility and stock return (T = 1). -/
def dtdRow (e f s r : FVal) : FVal :=
  (((((e.add f).div f).log).add r).sub
      (((FVal.fin 0.5).mul ((sigmaRow e f s).mul (sigmaRow e f s))).mul (FVal.fin 1))).div
    ((sigmaRow e f s).mul ((FVal.fin 1).sqrt))

/-! ## Side conditions for the winsorization idempotence claim -/

/-- The value pandas' linear interpolation produces at an exact quantile
position: lo + (hi - lo) * 0 with lo = hi collapses to lo when lo is
finite, and to NaN when lo is infinite (inf - inf is NaN in IEEE
arithmetic), in which case the clip bound is NaN and no clipping happens
on that side. -/
def expandBound : FVal → FVal
  | FVal.fin x => FVal.fin x
  | _ => FVal.nan

/-- The clip-bound pairs the winsorization can produce at exact quantile
positions: each bound is finite or NaN (NaN = no clipping on that side),
and two finite bounds are ordered. -/
def goodBounds : FVal → FVal → Prop
  | FVal.fin a, FVal.fin b => a ≤ b
  | FVal.fin _, FVal.nan => True
  | FVal.nan, FVal.fin _ => True
  | FVal.nan, FVal.nan => True
  | _, _ => False

/-- The two quantile positions of the winsorization fall exactly on order
statistics of the column's non-NaN cells. -/
def quantExact (level : ℝ) (xs : Col) : Prop :=
  (∃ k : ℕ, (k : ℝ) = level * (((nonNanCells xs).length : ℝ) - 1)) ∧
  (∃ k : ℕ, (k : ℝ) = (1 - level) * (((nonNanCells xs).length : ℝ) - 1))

/-! ## Concrete inputs used by counterexamples and witnesses -/

/-- The spec's worked distance-to-default example: one row with
E = 1,000,000, F = 300,000, sigma_E = 0.30, r = 0.08. -/
def dfC1 : DF :=
  ⟨["A"],
   [("equity_value", [FVal.fin 1000000]), ("debt_value", [FVal.fin 300000]),
    ("equity_volatility", [FVal.fin 0.3]), ("stock_return", [FVal.fin 0.08])]⟩

/-- One row with total_assets = 0 and nonzero numerators. -/
def dfC2 : DF :=
  ⟨["A"],
   [("net_income", [FVal.fin 5]), ("total_assets", [FVal.fin 0]),
    ("total_debt", [FVal.fin 3])]⟩

/-- One row with a missing total_assets. -/
def dfW2 : DF :=
  ⟨["A"],
   [("net_income", [FVal.fin 5]), ("total_assets", [FVal.nan]),
    ("total_debt", [FVal.fin 3])]⟩

/-- One row with a missing stock_return but complete firm values. -/
def dfC3 : DF :=
  ⟨["A"],
   [("equity_value", [FVal.fin 1000000]), ("debt_value", [FVal.fin 300000]),
    ("equity_volatility", [FVal.fin 0.3]), ("stock_return", [FVal.nan])]⟩

/-- One row with a zero debt value (F = 0), no missing input. -/
def dfC3b : DF :=
  ⟨["A"],
   [("equity_value", [FVal.fin 1]), ("debt_value", [FVal.fin 0]),
    ("equity_volatility", [FVal.fin 0.3]), ("stock_return", [FVal.fin 0.08])]⟩

/-- A table missing the stock_return column required for the
distance-to-default calculation. -/
def dfC7 : DF :=
  ⟨["A"],
   [("equity_value", [FVal.fin 1]), ("debt_value", [FVal.fin 1]),
    ("equity_volatility", [FVal.fin 1])]⟩

/-- A four-row numeric column whose quartiles interpolate strictly between
order statistics. -/
def dfC8 : DF :=
  ⟨["A", "B", "C", "D"],
   [("x", [FVal.fin 0, FVal.fin 4, FVal.fin 8, FVal.fin 12])]⟩

/-- A single-cell numeric column (its quantiles are exact). -/
def dfW8 : DF := ⟨["A"], [("x", [FVal.fin 7])]⟩

/-- A spread series with a negative entry. -/
def sC9 : Series := [(0, FVal.fin 1), (1, FVal.fin (-2)), (2, FVal.fin 4)]

/-- A strictly positive spread series. -/
def sW9 : Series := [(0, FVal.fin 1), (1, FVal.fin 4)]

/-- A table on which prepare_data_for_engineering takes no rebinding
branch: revenue_growth, roa, current_ratio, equity_value and debt_value
are present, while leverage is absent and will be written into the
caller's table. -/
def dfC6 : DF :=
  ⟨["A"],
   [("date", [FVal.fin 0]), ("total_debt", [FVal.fin 3]),
    ("total_assets", [FVal.fin 10]), ("roa", [FVal.fin 1]),
    ("revenue_growth", [FVal.fin 2]), ("current_ratio", [FVal.fin 1]),
    ("equity_value", [FVal.fin 7]), ("debt_value", [FVal.fin 3])]⟩

/-- Panel dates (in years) on which the second walk-forward window's
training set reaches back before the rolling window. -/
def timesC5 : List ℤ :=
  List.replicate 101 0 ++ List.replicate 30 3 ++ List.replicate 21 4 ++ [5]

/-- Ten rows of one period with no features and target 1. -/
def panelW : List FMRow := List.replicate 10 ⟨0, [], FVal.fin 1⟩

/-- A trivial stand-in for the abstract cross-sectional OLS fit. -/
def olsW : List (List ℝ) → List ℝ → Option (FVal × List FVal) :=
  fun _ _ => some (FVal.fin 1, [])

/-- A trivial stand-in for the abstract Student-t CDF. -/
def tcdfW : ℕ → ℝ → ℝ := fun _ _ => 0

/-! ## Basic lemmas about the value model -/

theorem FVal.nan_add (v : FVal) : FVal.nan.add v = FVal.nan := by cases v <;> rfl

theorem FVal.add_nan (v : FVal) : v.add FVal.nan = FVal.nan := by cases v <;> rfl

theorem FVal.nan_mul (v : FVal) : FVal.nan.mul v = FVal.nan := by cases v <;> rfl

theorem FVal.mul_nan (v : FVal) : v.mul FVal.nan = FVal.nan := by cases v <;> rfl

theorem FVal.nan_div (v : FVal) : FVal.nan.div v = FVal.nan := by cases v <;> rfl

theorem FVal.div_nan (v : FVal) : v.div FVal.nan = FVal.nan := by cases v <;> rfl

theorem FVal.nan_sub (v : FVal) : FVal.nan.sub v = FVal.nan := by
  cases v <;> rfl

theorem FVal.sub_nan (v : FVal) : v.sub FVal.nan = FVal.nan := by cases v <;> rfl

theorem FVal.log_nan : FVal.nan.log = FVal.nan := rfl

theorem FVal.fin_add (a b : ℝ) : (FVal.fin a).add (FVal.fin b) = FVal.fin (a + b) := rfl

theorem FVal.fin_mul (a b : ℝ) : (FVal.fin a).mul (FVal.fin b) = FVal.fin (a * b) := rfl

theorem FVal.fin_sub (a b : ℝ) : (FVal.fin a).sub (FVal.fin b) = FVal.fin (a - b) := by
  simp [FVal.sub, FVal.neg, FVal.add, sub_eq_add_neg]

theorem FVal.fin_div {b : ℝ} (a : ℝ) (h : b ≠ 0) :
    (FVal.fin a).div (FVal.fin b) = FVal.fin (a / b) := by
  simp [FVal.div, h]

theorem FVal.fin_log {x : ℝ} (h : 0 < x) :
    (FVal.fin x).log = FVal.fin (Real.log x) := by
  simp [FVal.log, h]

theorem FVal.fin_sqrt {x : ℝ} (h : 0 ≤ x) :
    (FVal.fin x).sqrt = FVal.fin (Real.sqrt x) := by
  simp [FVal.sqrt, h]

/-! ## Cell-level reading of column operations -/

theorem colZip_getD (f : FVal → FVal → FVal) (hf : f FVal.nan FVal.nan = FVal.nan)
    {xs ys : Col} (h : xs.length = ys.length) (i : ℕ) :
    (colZip f xs ys).getD i FVal.nan = f (xs.getD i FVal.nan) (ys.getD i FVal.nan) := by
  induction xs generalizing ys i with
  | nil =>
    have hy : ys = [] := by cases ys <;> simp_all
    subst hy; simp [colZip, hf]
  | cons a t ih =>
    cases ys with
    | nil => simp at h
    | cons b u =>
      cases i with
      | zero => simp [colZip]
      | succ j =>
        simpa [colZip] using ih (by simpa using h) j

theorem colMap_getD (f : FVal → FVal) (hf : f FVal.nan = FVal.nan) (xs : Col) (i : ℕ) :
    (colMap f xs).getD i FVal.nan = f (xs.getD i FVal.nan) := by
  induction xs generalizing i with
  | nil => simp [colMap, hf]
  | cons a t ih =>
    cases i with
    | zero => simp [colMap]
    | succ j => simpa [colMap] using ih j

/-! ## Lookup and assignment on tables -/

theorem find?_cons_pos {α : Type} (p : α → Bool) (a : α) (l : List α)
    (h : p a = true) : List.find? p (a :: l) = some a := by
  rw [List.find?_cons, h]

theorem find?_cons_neg {α : Type} (p : α → Bool) (a : α) (l : List α)
    (h : p a = false) : List.find? p (a :: l) = List.find? p l := by
  rw [List.find?_cons, h]

theorem find?_set_self (n : String) (v : Col) :
    ∀ l : List (String × Col), l.any (fun p => p.1 == n) = true →
      (l.map (fun p => if p.1 == n then (n, v) else p)).find? (fun p => p.1 == n) =
        some (n, v)
  | [], h => by simp at h
  | a :: t, h => by
      rw [List.map_cons]
      by_cases ha : (a.1 == n) = true
      · rw [if_pos ha]
        exact find?_cons_pos (fun (p : String × Col) => p.1 == n) _ _ (by simp)
      · have ha' : (a.1 == n) = false := by simpa using ha
        rw [if_neg ha, find?_cons_neg (fun (p : String × Col) => p.1 == n) a _ ha']
        have ht : t.any (fun p => p.1 == n) = true := by
          simpa [List.any_cons, ha'] using h
        exact find?_set_self n v t ht

theorem find?_set_ne (n m : String) (v : Col) (hnm : m ≠ n) :
    ∀ l : List (String × Col),
      (l.map (fun p => if p.1 == n then (n, v) else p)).find? (fun p => p.1 == m) =
        l.find? (fun p => p.1 == m)
  | [] => rfl
  | a :: t => by
      rw [List.map_cons]
      by_cases ha : (a.1 == n) = true
      · have ha' : a.1 = n := by simpa using ha
        have hnm' : ((n : String) == m) = false := by
          simp only [beq_eq_false_iff_ne, ne_eq]
          exact fun hh => hnm hh.symm
        have hm' : (a.1 == m) = false := by rw [ha']; exact hnm'
        rw [if_pos ha]
        rw [find?_cons_neg (fun (p : String × Col) => p.1 == m) _ _ hnm']
        rw [find?_cons_neg (fun (p : String × Col) => p.1 == m) _ _ hm']
        exact find?_set_ne n m v hnm t
      · rw [if_neg ha]
        by_cases hm : (a.1 == m) = true
        · rw [find?_cons_pos (fun (p : String × Col) => p.1 == m) _ _ hm,
            find?_cons_pos (fun (p : String × Col) => p.1 == m) _ _ hm]
        · have hm' : (a.1 == m) = false := by simpa using hm
          rw [find?_cons_neg (fun (p : String × Col) => p.1 == m) _ _ hm',
            find?_cons_neg (fun (p : String × Col) => p.1 == m) _ _ hm']
          exact find?_set_ne n m v hnm t

theorem DF.getCol?_setCol_self (df : DF) (n : String) (v : Col) :
    (df.setCol n v).getCol? n = some v := by
  unfold DF.setCol
  by_cases h : df.cols.any (fun p => p.1 == n) = true
  · rw [if_pos h]
    show ((df.cols.map (fun p => if p.1 == n then (n, v) else p)).find?
        (fun p => p.1 == n)).map (fun p => p.2) = some v
    rw [find?_set_self n v df.cols h]
    rfl
  · rw [if_neg h]
    show ((df.cols ++ [(n, v)]).find? (fun p => p.1 == n)).map (fun p => p.2) = some v
    have hn : df.cols.find? (fun p => p.1 == n) = none := by
      rw [List.find?_eq_none]
      intro x hx hpx
      exact h (List.any_eq_true.mpr ⟨x, hx, hpx⟩)
    rw [List.find?_append, hn, Option.none_or,
      find?_cons_pos (fun (p : String × Col) => p.1 == n) _ _ (by simp)]
    rfl

theorem DF.getCol?_setCol_ne (df : DF) {n m : String} (v : Col) (hnm : m ≠ n) :
    (df.setCol n v).getCol? m = df.getCol? m := by
  unfold DF.setCol
  by_cases h : df.cols.any (fun p => p.1 == n) = true
  · rw [if_pos h]
    show ((df.cols.map (fun p => if p.1 == n then (n, v) else p)).find?
        (fun p => p.1 == m)).map (fun p => p.2) = _
    rw [find?_set_ne n m v hnm df.cols]
    rfl
  · rw [if_neg h]
    show ((df.cols ++ [(n, v)]).find? (fun p => p.1 == m)).map (fun p => p.2) = _
    rw [List.find?_append]
    have h1 : (((n, v) : String × Col).1 == m) = false := by
      simp only [beq_eq_false_iff_ne, ne_eq]
      exact fun hh => hnm hh.symm
    rw [find?_cons_neg (fun (p : String × Col) => p.1 == m) _ _ h1, List.find?_nil, Option.or_none]
    rfl

theorem DF.hasCol_setCol_self (df : DF) (n : String) (v : Col) :
    (df.setCol n v).hasCol n = true := by
  simp [DF.hasCol, DF.getCol?_setCol_self]

theorem DF.hasCol_setCol_ne (df : DF) {n m : String} (v : Col) (hnm : m ≠ n) :
    (df.setCol n v).hasCol m = df.hasCol m := by
  simp [DF.hasCol, DF.getCol?_setCol_ne df v hnm]

theorem DF.getColD_setCol_self (df : DF) (n : String) (v : Col) :
    (df.setCol n v).getColD n = v := by
  simp [DF.getColD, DF.getCol?_setCol_self]

theorem DF.getColD_setCol_ne (df : DF) {n m : String} (v : Col) (hnm : m ≠ n) :
    (df.setCol n v).getColD m = df.getColD m := by
  simp [DF.getColD, DF.getCol?_setCol_ne df v hnm]

theorem DF.syms_setCol (df : DF) (n : String) (v : Col) :
    (df.setCol n v).syms = df.syms := by
  unfold DF.setCol
  by_cases h : df.cols.any (fun p => p.1 == n) = true <;> simp [h]

/-! ## Cell-level characterization of the distance-to-default columns -/

theorem sigmaVCol_getD (E F sE : Col) (h1 : E.length = F.length)
    (h2 : E.length = sE.length) (i : ℕ) :
    (sigmaVCol E F sE).getD i FVal.nan =
      sigmaRow (E.getD i FVal.nan) (F.getD i FVal.nan) (sE.getD i FVal.nan) := by
  have hEF : (colZip FVal.add E F).length = E.length := by
    simp [colZip]; omega
  have hdivE : (colZip FVal.div E (colZip FVal.add E F)).length = E.length := by
    simp [colZip]; omega
  have hdivF : (colZip FVal.div F (colZip FVal.add E F)).length = F.length := by
    simp [colZip]; omega
  have hmap : (colMap (fun s => (FVal.fin 0.05).add ((FVal.fin 0.25).mul s)) sE).length
      = sE.length := by simp [colMap]
  unfold sigmaVCol sigmaRow
  rw [colZip_getD FVal.add rfl (by simp [colZip, colMap]) i]
  rw [colZip_getD FVal.mul rfl (by rw [hdivE, h2]) i]
  rw [colZip_getD FVal.mul rfl (by rw [hdivF, hmap]; omega) i]
  rw [colZip_getD FVal.div rfl (by rw [hEF]) i]
  rw [colZip_getD FVal.div rfl (by rw [hEF]; omega) i]
  rw [colZip_getD FVal.add rfl h1 i]
  rw [colMap_getD _ (by simp [FVal.mul_nan, FVal.add_nan]) sE i]

theorem dtdColOf_getD (E F sE r : Col) (h1 : E.length = F.length)
    (h2 : E.length = sE.length) (h3 : E.length = r.length) (i : ℕ) :
    (dtdColOf E F sE r).getD i FVal.nan =
      dtdRow (E.getD i FVal.nan) (F.getD i FVal.nan) (sE.getD i FVal.nan)
        (r.getD i FVal.nan) := by
  have hsv : (sigmaVCol E F sE).length = E.length := by
    simp [sigmaVCol, colZip, colMap]; omega
  have hEF : (colZip FVal.add E F).length = E.length := by
    simp [colZip]; omega
  unfold dtdColOf dtdRow
  rw [colZip_getD FVal.div rfl
    (by simp [colZip, colMap, hsv, hEF]; omega) i]
  rw [colZip_getD FVal.sub rfl
    (by simp [colZip, colMap, hsv, hEF]; omega) i]
  rw [colZip_getD FVal.add rfl (by simp [colZip, colMap, hEF]; omega) i]
  rw [colMap_getD FVal.log rfl _ i]
  rw [colZip_getD FVal.div rfl (by rw [hEF]; exact h1) i]
  rw [colZip_getD FVal.add rfl h1 i]
  rw [colMap_getD _ (by simp [FVal.mul_nan, FVal.nan_mul]) _ i]
  rw [colMap_getD _ (by simp [FVal.nan_mul]) _ i]
  rw [sigmaVCol_getD E F sE h1 h2 i]

theorem dtd_cells (df : DF)
    (hall : (requiredDTDFields.all (fun n => df.hasCol n)) = true)
    (hEF : (df.getColD "equity_value").length = (df.getColD "debt_value").length)
    (hEs : (df.getColD "equity_value").length = (df.getColD "equity_volatility").length)
    (hEr : (df.getColD "equity_value").length = (df.getColD "stock_return").length)
    (i : ℕ) :
    (calculate_naive_distance_to_default df).getCell "naive_sigma_v" i =
      sigmaRow (df.getCell "equity_value" i) (df.getCell "debt_value" i)
        (df.getCell "equity_volatility" i) ∧
    (calculate_naive_distance_to_default df).getCell "naive_dtd" i =
      dtdRow (df.getCell "equity_value" i) (df.getCell "debt_value" i)
        (df.getCell "equity_volatility" i) (df.getCell "stock_return" i) := by
  unfold calculate_naive_distance_to_default
  rw [if_pos hall]
  constructor
  · show ((((df.setCol "naive_sigma_v" _).setCol "naive_dtd" _).getColD
      "naive_sigma_v").getD i FVal.nan) = _
    rw [DF.getColD_setCol_ne _ _ (by decide), DF.getColD_setCol_self]
    exact sigmaVCol_getD _ _ _ hEF hEs i
  · show ((((df.setCol "naive_sigma_v" _).setCol "naive_dtd" _).getColD
      "naive_dtd").getD i FVal.nan) = _
    rw [DF.getColD_setCol_self]
    exact dtdColOf_getD _ _ _ _ hEF hEs hEr i

/-! ## NaN propagation through the distance-to-default row formulas -/

theorem sigmaRow_nan_left (f s : FVal) : sigmaRow FVal.nan f s = FVal.nan := by
  simp [sigmaRow, FVal.nan_add, FVal.add_nan, FVal.nan_mul, FVal.mul_nan,
    FVal.nan_div, FVal.div_nan]

theorem sigmaRow_nan_mid (e s : FVal) : sigmaRow e FVal.nan s = FVal.nan := by
  simp [sigmaRow, FVal.nan_add, FVal.add_nan, FVal.nan_mul, FVal.mul_nan,
    FVal.nan_div, FVal.div_nan]

theorem sigmaRow_nan_sigma (e f : FVal) : sigmaRow e f FVal.nan = FVal.nan := by
  simp [sigmaRow, FVal.nan_add, FVal.add_nan, FVal.nan_mul, FVal.mul_nan,
    FVal.nan_div, FVal.div_nan]

theorem dtdRow_nan_of_sigma (e f s r : FVal) (h : sigmaRow e f s = FVal.nan) :
    dtdRow e f s r = FVal.nan := by
  simp [dtdRow, h, FVal.nan_add, FVal.add_nan, FVal.nan_mul, FVal.mul_nan,
    FVal.nan_div, FVal.div_nan, FVal.nan_sub, FVal.sub_nan]

theorem dtdRow_nan_ret (e f s : FVal) : dtdRow e f s FVal.nan = FVal.nan := by
  simp [dtdRow, FVal.nan_add, FVal.add_nan, FVal.nan_mul, FVal.mul_nan,
    FVal.nan_div, FVal.div_nan, FVal.nan_sub, FVal.sub_nan]

/-! ## Concrete special-value computations -/

theorem FVal.log_pinf : FVal.pinf.log = FVal.pinf := rfl

theorem FVal.pinf_add_fin (b : ℝ) : FVal.pinf.add (FVal.fin b) = FVal.pinf := rfl

theorem FVal.pinf_sub_fin (b : ℝ) : FVal.pinf.sub (FVal.fin b) = FVal.pinf := rfl

theorem FVal.pinf_div_fin {b : ℝ} (h : ¬b < 0) :
    FVal.pinf.div (FVal.fin b) = FVal.pinf := by
  simp [FVal.div, h]

theorem FVal.fin_div_zero_pos {a : ℝ} (h : 0 < a) :
    (FVal.fin a).div (FVal.fin 0) = FVal.pinf := by
  simp [FVal.div, h]

/-! ## Claim C3: missing-input behaviour of the distance-to-default
calculator -/

/-- C3 counterexample: the claim says naive_sigma_v is missing whenever
stock_return is missing; on a row whose only missing input is
stock_return, the code still produces a (non-missing) naive_sigma_v,
because the sigma_v formula does not read the stock return. -/
theorem C3_counterexample :
    (calculate_naive_distance_to_default dfC3).getCell "naive_sigma_v" 0 ≠ FVal.nan := by
  have h := (dtd_cells dfC3 rfl rfl rfl rfl 0).1
  have he : dfC3.getCell "equity_value" 0 = FVal.fin 1000000 := rfl
  have hf : dfC3.getCell "debt_value" 0 = FVal.fin 300000 := rfl
  have hs : dfC3.getCell "equity_volatility" 0 = FVal.fin 0.3 := rfl
  rw [h, he, hf, hs]
  norm_num [sigmaRow, FVal.fin_add, FVal.fin_mul, FVal.fin_div]
  simp

/-- C3 amended: both outputs are missing when equity value, debt value or
equity volatility is missing; naive_dtd (but not naive_sigma_v) is missing
when the stock return is missing; and non-positive firm values are not
guarded: a zero debt value yields an infinite naive_dtd rather than a
missing one. -/
theorem C3_amended :
    (∀ df : DF, (requiredDTDFields.all (fun n => df.hasCol n)) = true →
      (df.getColD "equity_value").length = (df.getColD "debt_value").length →
      (df.getColD "equity_value").length = (df.getColD "equity_volatility").length →
      (df.getColD "equity_value").length = (df.getColD "stock_return").length →
      ∀ i : ℕ,
        ((df.getCell "equity_value" i = FVal.nan ∨
            df.getCell "debt_value" i = FVal.nan ∨
            df.getCell "equity_volatility" i = FVal.nan) →
          (calculate_naive_distance_to_default df).getCell "naive_sigma_v" i = FVal.nan ∧
          (calculate_naive_distance_to_default df).getCell "naive_dtd" i = FVal.nan) ∧
        (df.getCell "stock_return" i = FVal.nan →
          (calculate_naive_distance_to_default df).getCell "naive_dtd" i = FVal.nan)) ∧
    (calculate_naive_distance_to_default dfC3b).getCell "naive_dtd" 0 = FVal.pinf := by
  constructor
  · intro df hall h1 h2 h3 i
    obtain ⟨hsv, hdtd⟩ := dtd_cells df hall h1 h2 h3 i
    constructor
    · intro hmiss
      have hsig : sigmaRow (df.getCell "equity_value" i) (df.getCell "debt_value" i)
          (df.getCell "equity_volatility" i) = FVal.nan := by
        rcases hmiss with h | h | h
        · rw [h]; exact sigmaRow_nan_left _ _
        · rw [h]; exact sigmaRow_nan_mid _ _
        · rw [h]; exact sigmaRow_nan_sigma _ _
      exact ⟨by rw [hsv]; exact hsig,
        by rw [hdtd]; exact dtdRow_nan_of_sigma _ _ _ _ hsig⟩
    · intro hr
      rw [hdtd, hr]
      exact dtdRow_nan_ret _ _ _
  · have h := (dtd_cells dfC3b rfl rfl rfl rfl 0).2
    have he : dfC3b.getCell "equity_value" 0 = FVal.fin 1 := rfl
    have hf : dfC3b.getCell "debt_value" 0 = FVal.fin 0 := rfl
    have hs : dfC3b.getCell "equity_volatility" 0 = FVal.fin 0.3 := rfl
    have hr : dfC3b.getCell "stock_return" 0 = FVal.fin 0.08 := rfl
    rw [h, he, hf, hs, hr]
    have hsig : sigmaRow (FVal.fin 1) (FVal.fin 0) (FVal.fin 0.3) = FVal.fin 0.3 := by
      norm_num [sigmaRow, FVal.fin_add, FVal.fin_mul, FVal.fin_div]
    unfold dtdRow
    rw [hsig, FVal.fin_add]
    rw [show (FVal.fin ((1 : ℝ) + 0)).div (FVal.fin 0) = FVal.pinf from
      FVal.fin_div_zero_pos (by norm_num)]
    rw [FVal.log_pinf, FVal.pinf_add_fin]
    simp only [FVal.fin_mul]
    rw [FVal.pinf_sub_fin]
    rw [FVal.fin_sqrt (by norm_num : (0 : ℝ) ≤ 1), Real.sqrt_one]
    simp only [FVal.fin_mul]
    rw [FVal.pinf_div_fin (by norm_num)]

/-- C3 amended, witness: on the concrete row with a missing stock return,
the naive_dtd output is missing. -/
theorem C3_amended_witness :
    (calculate_naive_distance_to_default dfC3).getCell "naive_dtd" 0 = FVal.nan :=
  (C3_amended.1 dfC3 rfl rfl rfl rfl 0).2 rfl

/-! ## Claim C1: the worked distance-to-default example

The exact outputs on the spec's example row are
naive_sigma_v = 27/104 = 0.259615... and
naive_dtd = (log(13/3) + 0.08 - 729/21632) / (27/104) = 5.82645...; the
log is bounded through its Taylor series at 13/12 together with the
9-digit bounds on log 2. -/

theorem log_13_12_bounds :
    (0.0800423 : ℝ) ≤ Real.log (13 / 12) ∧ Real.log (13 / 12) ≤ 0.0800432 := by
  have hx : |(-1 : ℝ) / 12| < 1 := by
    rw [abs_div, abs_neg, abs_one, abs_of_pos (by norm_num : (0 : ℝ) < 12)]
    norm_num
  have h := Real.abs_log_sub_add_sum_range_le hx 5
  rw [abs_div, abs_neg, abs_one, abs_of_pos (by norm_num : (0 : ℝ) < 12)] at h
  have h13 : (1 : ℝ) - (-1) / 12 = 13 / 12 := by norm_num
  rw [h13] at h
  rw [Finset.sum_range_succ, Finset.sum_range_succ, Finset.sum_range_succ,
    Finset.sum_range_succ, Finset.sum_range_succ, Finset.sum_range_zero] at h
  rw [abs_le] at h
  norm_num at h
  constructor <;> linarith [h.1, h.2]

theorem log_13_3_bounds :
    (1.4663366 : ℝ) ≤ Real.log (13 / 3) ∧ Real.log (13 / 3) ≤ 1.4663376 := by
  have h4 : Real.log (13 / 3 : ℝ) = 2 * Real.log 2 + Real.log (13 / 12) := by
    have h2 : (13 / 3 : ℝ) = 2 ^ 2 * (13 / 12) := by norm_num
    rw [h2, Real.log_mul (by norm_num) (by norm_num), Real.log_pow]
    norm_num
  have h2l := Real.log_two_gt_d9
  have h2u := Real.log_two_lt_d9
  have h12 := log_13_12_bounds
  rw [h4]
  constructor <;> linarith [h12.1, h12.2]

theorem C1_sigma_value :
    (calculate_naive_distance_to_default dfC1).getCell "naive_sigma_v" 0 =
      FVal.fin (27 / 104) := by
  have h := (dtd_cells dfC1 rfl rfl rfl rfl 0).1
  have he : dfC1.getCell "equity_value" 0 = FVal.fin 1000000 := rfl
  have hf : dfC1.getCell "debt_value" 0 = FVal.fin 300000 := rfl
  have hs : dfC1.getCell "equity_volatility" 0 = FVal.fin 0.3 := rfl
  rw [h, he, hf, hs]
  norm_num [sigmaRow, FVal.fin_add, FVal.fin_mul, FVal.fin_div]

theorem C1_dtd_value :
    (calculate_naive_distance_to_default dfC1).getCell "naive_dtd" 0 =
      FVal.fin ((Real.log (13 / 3) + 0.08 - 729 / 21632) / (27 / 104)) := by
  have h := (dtd_cells dfC1 rfl rfl rfl rfl 0).2
  have he : dfC1.getCell "equity_value" 0 = FVal.fin 1000000 := rfl
  have hf : dfC1.getCell "debt_value" 0 = FVal.fin 300000 := rfl
  have hs : dfC1.getCell "equity_volatility" 0 = FVal.fin 0.3 := rfl
  have hr : dfC1.getCell "stock_return" 0 = FVal.fin 0.08 := rfl
  rw [h, he, hf, hs, hr]
  have hsig : sigmaRow (FVal.fin 1000000) (FVal.fin 300000) (FVal.fin 0.3) =
      FVal.fin (27 / 104) := by
    norm_num [sigmaRow, FVal.fin_add, FVal.fin_mul, FVal.fin_div]
  unfold dtdRow
  rw [hsig, FVal.fin_add]
  norm_num [FVal.fin_div, FVal.fin_log, FVal.fin_mul, FVal.fin_sub, FVal.fin_sqrt,
    Real.sqrt_one, FVal.fin_add]

/-- C1 counterexample: on the spec's example row the code's naive_dtd is
5.82645..., not 5.818: it differs from the claimed value by more than
half a unit in the third decimal place (the spec's own arithmetic
1.5126/0.2596 is 5.8267, not 5.818). -/
theorem C1_counterexample :
    ∃ d : ℝ, (calculate_naive_distance_to_default dfC1).getCell "naive_dtd" 0 =
      FVal.fin d ∧ 0.0005 < |d - 5.818| := by
  refine ⟨_, C1_dtd_value, ?_⟩
  have hb := log_13_3_bounds
  have h1 : (5.8185 : ℝ) <
      (Real.log (13 / 3) + 0.08 - 729 / 21632) / (27 / 104) := by
    rw [lt_div_iff₀ (by norm_num : (0 : ℝ) < 27 / 104)]
    nlinarith [hb.1]
  rw [abs_of_pos (by linarith)]
  linarith

/-- C1 amended: on the example row the code returns
naive_sigma_v = 0.2596 (3 decimal places, as claimed) and
naive_dtd = 5.826 (3 decimal places), not the spec's 5.818. -/
theorem C1_amended :
    (∃ s : ℝ, (calculate_naive_distance_to_default dfC1).getCell "naive_sigma_v" 0 =
      FVal.fin s ∧ |s - 0.2596| ≤ 0.0005) ∧
    (∃ d : ℝ, (calculate_naive_distance_to_default dfC1).getCell "naive_dtd" 0 =
      FVal.fin d ∧ |d - 5.826| ≤ 0.0005) := by
  constructor
  · refine ⟨_, C1_sigma_value, ?_⟩
    rw [abs_le]
    constructor <;> norm_num
  · refine ⟨_, C1_dtd_value, ?_⟩
    have hb := log_13_3_bounds
    have hlo : (5.8255 : ℝ) ≤
        (Real.log (13 / 3) + 0.08 - 729 / 21632) / (27 / 104) := by
      rw [le_div_iff₀ (by norm_num : (0 : ℝ) < 27 / 104)]
      nlinarith [hb.1]
    have hhi : (Real.log (13 / 3) + 0.08 - 729 / 21632) / (27 / 104) ≤
        (5.8265 : ℝ) := by
      rw [div_le_iff₀ (by norm_num : (0 : ℝ) < 27 / 104)]
      nlinarith [hb.2]
    rw [abs_le]
    constructor <;> linarith

/-! ## Claim C2: zero or missing total_assets in the accounting ratios -/

theorem accRoaStep_getColD_ne (df : DF) {m : String} (hm : m ≠ "roa") :
    (accRoaStep df).getColD m = df.getColD m := by
  unfold accRoaStep
  by_cases h : (df.hasCol "net_income" && df.hasCol "total_assets") = true
  · rw [if_pos h, DF.getColD_setCol_ne _ _ hm]
  · rw [if_neg h]

theorem accRoaStep_hasCol_ne (df : DF) {m : String} (hm : m ≠ "roa") :
    (accRoaStep df).hasCol m = df.hasCol m := by
  unfold accRoaStep
  by_cases h : (df.hasCol "net_income" && df.hasCol "total_assets") = true
  · rw [if_pos h, DF.hasCol_setCol_ne _ _ hm]
  · rw [if_neg h]

theorem accRevStep_getColD_ne (df : DF) {m : String} (hm : m ≠ "revenue_growth") :
    (accRevStep df).getColD m = df.getColD m := by
  unfold accRevStep
  by_cases h : df.hasCol "total_revenue" = true
  · rw [if_pos h, DF.getColD_setCol_ne _ _ hm]
  · rw [if_neg h]

theorem accRevStep_hasCol_ne (df : DF) {m : String} (hm : m ≠ "revenue_growth") :
    (accRevStep df).hasCol m = df.hasCol m := by
  unfold accRevStep
  by_cases h : df.hasCol "total_revenue" = true
  · rw [if_pos h, DF.hasCol_setCol_ne _ _ hm]
  · rw [if_neg h]

theorem accLevStep_getColD_ne (df : DF) {m : String} (hm : m ≠ "leverage") :
    (accLevStep df).getColD m = df.getColD m := by
  unfold accLevStep
  by_cases h : (df.hasCol "total_debt" && df.hasCol "total_assets") = true
  · rw [if_pos h, DF.getColD_setCol_ne _ _ hm]
  · rw [if_neg h]

theorem accRetStep_getColD_ne (df : DF) {m : String}
    (hm : m ≠ "retained_earnings_ratio") :
    (accRetStep df).getColD m = df.getColD m := by
  unfold accRetStep
  by_cases h : (df.hasCol "retained_earnings" && df.hasCol "total_assets") = true
  · rw [if_pos h, DF.getColD_setCol_ne _ _ hm]
  · rw [if_neg h]

theorem accNigStep_getColD_ne (df : DF) {m : String}
    (hm : m ≠ "net_income_growth_normalized") :
    (accNigStep df).getColD m = df.getColD m := by
  unfold accNigStep
  by_cases h : (df.hasCol "net_income" && df.hasCol "total_assets") = true
  · rw [if_pos h, DF.getColD_setCol_ne _ _ hm]
  · rw [if_neg h]

theorem acc_roa_col (df : DF) (hni : df.hasCol "net_income" = true)
    (hta : df.hasCol "total_assets" = true) :
    (create_accounting_features df).getColD "roa" =
      colMap (fun v => v.mul (FVal.fin 100))
        (colZip FVal.div (df.getColD "net_income") (df.getColD "total_assets")) := by
  unfold create_accounting_features
  rw [accNigStep_getColD_ne _ (by decide), accRetStep_getColD_ne _ (by decide),
    accLevStep_getColD_ne _ (by decide), accRevStep_getColD_ne _ (by decide)]
  unfold accRoaStep
  rw [if_pos (by rw [hni, hta]; rfl), DF.getColD_setCol_self]

theorem acc_leverage_col (df : DF) (htd : df.hasCol "total_debt" = true)
    (hta : df.hasCol "total_assets" = true) :
    (create_accounting_features df).getColD "leverage" =
      colZip FVal.div (df.getColD "total_debt") (df.getColD "total_assets") := by
  unfold create_accounting_features
  rw [accNigStep_getColD_ne _ (by decide), accRetStep_getColD_ne _ (by decide)]
  have htd2 : (accRevStep (accRoaStep df)).hasCol "total_debt" = true := by
    rw [accRevStep_hasCol_ne _ (by decide), accRoaStep_hasCol_ne _ (by decide)]
    exact htd
  have hta2 : (accRevStep (accRoaStep df)).hasCol "total_assets" = true := by
    rw [accRevStep_hasCol_ne _ (by decide), accRoaStep_hasCol_ne _ (by decide)]
    exact hta
  unfold accLevStep
  rw [if_pos (by rw [htd2, hta2]; rfl), DF.getColD_setCol_self]
  rw [accRevStep_getColD_ne _ (by decide : "total_debt" ≠ "revenue_growth"),
    accRoaStep_getColD_ne _ (by decide : "total_debt" ≠ "roa"),
    accRevStep_getColD_ne _ (by decide : "total_assets" ≠ "revenue_growth"),
    accRoaStep_getColD_ne _ (by decide : "total_assets" ≠ "roa")]

/-- C2 counterexample: a row with total_assets = 0 and nonzero numerators
yields roa and leverage equal to plus infinity, not to a missing value. -/
theorem C2_counterexample :
    (create_accounting_features dfC2).getCell "roa" 0 = FVal.pinf ∧
    (create_accounting_features dfC2).getCell "leverage" 0 = FVal.pinf ∧
    FVal.pinf ≠ FVal.nan := by
  refine ⟨?_, ?_, by simp⟩
  · show ((create_accounting_features dfC2).getColD "roa").getD 0 FVal.nan = _
    rw [acc_roa_col dfC2 rfl rfl]
    have hni : dfC2.getColD "net_income" = [FVal.fin 5] := rfl
    have hta : dfC2.getColD "total_assets" = [FVal.fin 0] := rfl
    rw [hni, hta]
    have hz : colZip FVal.div [FVal.fin 5] [FVal.fin 0] = [FVal.pinf] := by
      norm_num [colZip, FVal.fin_div_zero_pos]
    rw [hz]
    norm_num [colMap, FVal.mul]
  · show ((create_accounting_features dfC2).getColD "leverage").getD 0 FVal.nan = _
    rw [acc_leverage_col dfC2 rfl rfl]
    have htd : dfC2.getColD "total_debt" = [FVal.fin 3] := rfl
    have hta : dfC2.getColD "total_assets" = [FVal.fin 0] := rfl
    rw [htd, hta]
    have hz : colZip FVal.div [FVal.fin 3] [FVal.fin 0] = [FVal.pinf] := by
      norm_num [colZip, FVal.fin_div_zero_pos]
    rw [hz]
    rfl

/-- C2 amended: in create_accounting_features a missing total_assets makes
roa and leverage missing (NaN propagates through the division); a zero
total_assets is not guarded and yields an infinite value instead, as the
counterexample shows, though no exception is ever raised (the embedding is
total). -/
theorem C2_amended (df : DF)
    (hni : df.hasCol "net_income" = true) (hta : df.hasCol "total_assets" = true)
    (htd : df.hasCol "total_debt" = true)
    (h1 : (df.getColD "net_income").length = (df.getColD "total_assets").length)
    (h2 : (df.getColD "total_debt").length = (df.getColD "total_assets").length)
    (i : ℕ) (hmiss : df.getCell "total_assets" i = FVal.nan) :
    (create_accounting_features df).getCell "roa" i = FVal.nan ∧
    (create_accounting_features df).getCell "leverage" i = FVal.nan := by
  have hmiss' : (df.getColD "total_assets").getD i FVal.nan = FVal.nan := hmiss
  constructor
  · show ((create_accounting_features df).getColD "roa").getD i FVal.nan = _
    rw [acc_roa_col df hni hta]
    rw [colMap_getD _ (by simp [FVal.nan_mul]) _ i]
    rw [colZip_getD FVal.div rfl h1 i]
    rw [hmiss', FVal.div_nan, FVal.nan_mul]
  · show ((create_accounting_features df).getColD "leverage").getD i FVal.nan = _
    rw [acc_leverage_col df htd hta]
    rw [colZip_getD FVal.div rfl h2 i]
    rw [hmiss', FVal.div_nan]

/-- C2 amended, witness: the concrete row with a missing total_assets. -/
theorem C2_amended_witness :
    (create_accounting_features dfW2).getCell "roa" 0 = FVal.nan ∧
    (create_accounting_features dfW2).getCell "leverage" 0 = FVal.nan :=
  C2_amended dfW2 rfl rfl rfl rfl rfl 0 rfl

/-! ## Claim C7: behaviour when a required raw column is absent -/

theorem interRoaLevStep_hasCol_ne (df : DF) {m : String}
    (hm : m ≠ "roa_leverage_interaction") :
    (interRoaLevStep df).hasCol m = df.hasCol m := by
  unfold interRoaLevStep
  by_cases h : (df.hasCol "roa" && df.hasCol "leverage") = true
  · rw [if_pos h, DF.hasCol_setCol_ne _ _ hm]
  · rw [if_neg h]

theorem interGrowthVolStep_hasCol_ne (df : DF) {m : String}
    (hm : m ≠ "growth_volatility_interaction") :
    (interGrowthVolStep df).hasCol m = df.hasCol m := by
  unfold interGrowthVolStep
  by_cases h : (df.hasCol "revenue_growth" && df.hasCol "equity_volatility_100d") = true
  · rw [if_pos h, DF.hasCol_setCol_ne _ _ hm]
  · rw [if_neg h]

theorem interLogMcapStep_hasCol_ne (df : DF) {m : String}
    (hm : m ≠ "log_market_cap") :
    (interLogMcapStep df).hasCol m = df.hasCol m := by
  unfold interLogMcapStep
  by_cases h : df.hasCol "market_cap" = true
  · rw [if_pos h, DF.hasCol_setCol_ne _ _ hm]
  · rw [if_neg h]

theorem dtd_missing_branch (df : DF)
    (hall : (requiredDTDFields.all (fun n => df.hasCol n)) = false) :
    (calculate_naive_distance_to_default df).getCol? "naive_dtd" =
      some (List.replicate df.nrows FVal.nan) ∧
    (calculate_naive_distance_to_default df).getCol? "naive_sigma_v" =
      some (List.replicate df.nrows FVal.nan) := by
  unfold calculate_naive_distance_to_default
  rw [if_neg (by simp [hall])]
  constructor
  · rw [DF.getCol?_setCol_ne _ _ (by decide), DF.getCol?_setCol_self]
  · rw [DF.getCol?_setCol_self]

/-- C7 counterexample: on a table missing the stock_return column, the
naive_dtd column is present in the output (as an all-missing column), not
absent as the claim requires. -/
theorem C7_counterexample :
    dfC7.hasCol "stock_return" = false ∧
    (calculate_naive_distance_to_default dfC7).hasCol "naive_dtd" = true := by
  constructor
  · rfl
  · have h := (dtd_missing_branch dfC7 rfl).1
    simp [DF.hasCol, h]

/-- C7 amended: each of the three interaction features (roa_leverage,
growth_volatility, log_market_cap) is genuinely skipped (its column is
absent from the output) when an operand column is missing, but the
distance-to-default fallback instead assigns naive_dtd and naive_sigma_v
as all-missing columns; no exception is raised (the embedding is
total). -/
theorem C7_amended :
    (∀ df : DF, (df.hasCol "roa" = false ∨ df.hasCol "leverage" = false) →
      df.hasCol "roa_leverage_interaction" = false →
      (create_interaction_features df).hasCol "roa_leverage_interaction" = false) ∧
    (∀ df : DF, (df.hasCol "revenue_growth" = false ∨
        df.hasCol "equity_volatility_100d" = false) →
      df.hasCol "growth_volatility_interaction" = false →
      (create_interaction_features df).hasCol "growth_volatility_interaction" = false) ∧
    (∀ df : DF, df.hasCol "market_cap" = false →
      df.hasCol "log_market_cap" = false →
      (create_interaction_features df).hasCol "log_market_cap" = false) ∧
    (∀ df : DF, (requiredDTDFields.all (fun n => df.hasCol n)) = false →
      (calculate_naive_distance_to_default df).getCol? "naive_dtd" =
        some (List.replicate df.nrows FVal.nan) ∧
      (calculate_naive_distance_to_default df).getCol? "naive_sigma_v" =
        some (List.replicate df.nrows FVal.nan)) := by
  refine ⟨?_, ?_, ?_, dtd_missing_branch⟩
  · intro df hop habs
    unfold create_interaction_features
    rw [interLogMcapStep_hasCol_ne _ (by decide),
      interGrowthVolStep_hasCol_ne _ (by decide)]
    unfold interRoaLevStep
    rw [if_neg (by rcases hop with h | h <;> simp [h])]
    exact habs
  · intro df hop habs
    have hcond : ((interRoaLevStep df).hasCol "revenue_growth" &&
        (interRoaLevStep df).hasCol "equity_volatility_100d") = false := by
      rw [interRoaLevStep_hasCol_ne _ (by decide),
        interRoaLevStep_hasCol_ne _ (by decide)]
      rcases hop with h | h <;> simp [h]
    unfold create_interaction_features
    rw [interLogMcapStep_hasCol_ne _ (by decide)]
    unfold interGrowthVolStep
    rw [if_neg (by simp [hcond]), interRoaLevStep_hasCol_ne _ (by decide)]
    exact habs
  · intro df hop habs
    have hcond : (interGrowthVolStep (interRoaLevStep df)).hasCol "market_cap"
        = false := by
      rw [interGrowthVolStep_hasCol_ne _ (by decide),
        interRoaLevStep_hasCol_ne _ (by decide)]
      exact hop
    unfold create_interaction_features
    unfold interLogMcapStep
    rw [if_neg (by simp [hcond]), interGrowthVolStep_hasCol_ne _ (by decide),
      interRoaLevStep_hasCol_ne _ (by decide)]
    exact habs

/-- C7 amended, witness: concrete instances of all four parts. -/
theorem C7_amended_witness :
    (create_interaction_features dfC2).hasCol "roa_leverage_interaction" = false ∧
    (create_interaction_features dfC2).hasCol "growth_volatility_interaction" = false ∧
    (create_interaction_features dfC2).hasCol "log_market_cap" = false ∧
    (calculate_naive_distance_to_default dfC7).getCol? "naive_dtd" =
      some [FVal.nan] :=
  ⟨C7_amended.1 dfC2 (Or.inl rfl) rfl,
    C7_amended.2.1 dfC2 (Or.inl rfl) rfl,
    C7_amended.2.2.1 dfC2 rfl rfl,
    (C7_amended.2.2.2 dfC7 rfl).1⟩

/-! ## Claim C9: the target transform -/

theorem replaceZeroWithNan_of_pos {x : ℝ} (hx : 0 < x) :
    FVal.replaceZeroWithNan (FVal.fin x) = FVal.fin x := by
  unfold FVal.replaceZeroWithNan
  rw [if_neg (by simp only [FVal.fin.injEq]; exact ne_of_gt hx)]

theorem gtZeroB_fin_of_pos {x : ℝ} (hx : 0 < x) :
    (FVal.fin x).gtZeroB = true := by
  simp only [FVal.gtZeroB]
  rw [if_pos hx]

/-- C9 counterexample: the claim says non-positive entries stay in place
as missing values; the code instead removes them, so a three-entry series
with one negative value transforms into a two-entry series. -/
theorem C9_counterexample :
    (transform_target_variable sC9).length = 2 ∧ sC9.length = 3 := by
  constructor
  · unfold transform_target_variable sC9
    norm_num [FVal.replaceZeroWithNan, FVal.gtZeroB, List.filter]
  · rfl

/-- C9 amended: zero, negative and missing entries are removed from the
series entirely (shortening it) rather than kept in place as missing;
strictly positive entries map to their natural log, and for a series of
strictly positive entries applying exp elementwise recovers the input
exactly; every output entry originates from an input entry with the same
index label whose value compared strictly positive. -/
theorem C9_amended :
    (∀ s : Series, (∀ p ∈ s, ∃ x : ℝ, p.2 = FVal.fin x ∧ 0 < x) →
      (transform_target_variable s).map (fun p => (p.1, p.2.exp)) = s) ∧
    (∀ s : Series, ∀ p ∈ transform_target_variable s,
      ∃ v : FVal, (p.1, v) ∈ s ∧ v.gtZeroB = true ∧ p.2 = v.log) := by
  constructor
  · intro s hpos
    induction s with
    | nil => rfl
    | cons a t ih =>
      obtain ⟨x, hx, hxpos⟩ := hpos a (List.mem_cons_self a t)
      have ht := ih (fun p hp => hpos p (List.mem_cons_of_mem a hp))
      unfold transform_target_variable at ht ⊢
      simp only [List.map_cons, List.filter_cons]
      rw [hx, replaceZeroWithNan_of_pos hxpos]
      simp only [gtZeroB_fin_of_pos hxpos, if_true]
      simp only [List.map_cons, FVal.fin_log hxpos]
      rw [show (FVal.fin (Real.log x)).exp = FVal.fin x from by
        simp only [FVal.exp]; rw [Real.exp_log hxpos]]
      rw [ht]
      rw [show ((a.1, FVal.fin x) : ℕ × FVal) = a from by rw [← hx]]
  · intro s
    induction s with
    | nil =>
      intro p hp
      simp [transform_target_variable] at hp
    | cons a t ih =>
      intro p hp
      unfold transform_target_variable at hp
      simp only [List.map_cons, List.filter_cons] at hp
      by_cases hg : (FVal.replaceZeroWithNan a.2).gtZeroB = true
      · have hrep : FVal.replaceZeroWithNan a.2 = a.2 := by
          unfold FVal.replaceZeroWithNan
          by_cases hz : a.2 = FVal.fin 0
          · exfalso
            unfold FVal.replaceZeroWithNan at hg
            rw [if_pos hz] at hg
            exact absurd hg (by simp [FVal.gtZeroB])
          · rw [if_neg hz]
        rw [hrep] at hp hg
        simp only [hg, if_true, List.map_cons, List.mem_cons] at hp
        rcases hp with hp | hp
        · exact ⟨a.2, by rw [hp]; simp, hg, by rw [hp]⟩
        · obtain ⟨v, hv1, hv2, hv3⟩ := ih p (by unfold transform_target_variable; exact hp)
          exact ⟨v, List.mem_cons_of_mem a hv1, hv2, hv3⟩
      · have hg' : (FVal.replaceZeroWithNan a.2).gtZeroB = false := by
          simpa using hg
        rw [hg'] at hp
        simp only [Bool.false_eq_true, if_false] at hp
        obtain ⟨v, hv1, hv2, hv3⟩ := ih p (by unfold transform_target_variable; exact hp)
        exact ⟨v, List.mem_cons_of_mem a hv1, hv2, hv3⟩

/-- C9 amended, witness: the strictly positive concrete series
round-trips. -/
theorem C9_amended_witness :
    (transform_target_variable sW9).map (fun p => (p.1, p.2.exp)) = sW9 :=
  C9_amended.1 sW9 (by
    intro p hp
    rcases (by simpa [sW9] using hp :
        p = ((0 : ℕ), FVal.fin 1) ∨ p = ((1 : ℕ), FVal.fin 4)) with rfl | rfl
    · exact ⟨1, rfl, by norm_num⟩
    · exact ⟨4, rfl, by norm_num⟩)

/-! ## Claim C5: walk-forward window structure -/

theorem splitLoop_mem (times : List ℤ) (b mx : ℤ) :
    ∀ (fuel : ℕ) (cur c : ℤ) (tr te : List ℤ),
      (c, tr, te) ∈ splitLoop times b mx fuel cur →
      tr = times.filter (fun t => t < c) ∧
      te = times.filter (fun t => c ≤ t ∧ t < c + b) ∧
      100 < tr.length ∧ 20 < te.length ∧ c + b ≤ mx ∧ ∃ i : ℕ, c = cur + i := by
  intro fuel
  induction fuel with
  | zero =>
    intro cur c tr te h
    simp [splitLoop] at h
  | succ n ih =>
    intro cur c tr te h
    unfold splitLoop at h
    by_cases hc : cur + b ≤ mx
    · rw [if_pos hc] at h
      rcases List.mem_append.mp h with h1 | h2
      · by_cases hcond : 100 < (times.filter (fun t => t < cur)).length ∧
            20 < (times.filter (fun t => cur ≤ t ∧ t < cur + b)).length
        · rw [if_pos hcond] at h1
          obtain ⟨hc1, hc2, hc3⟩ : c = cur ∧ tr = times.filter (fun t => t < cur) ∧
              te = times.filter (fun t => cur ≤ t ∧ t < cur + b) := by
            simpa [Prod.ext_iff] using List.mem_singleton.mp h1
          subst hc1
          refine ⟨hc2, hc3, ?_, ?_, hc, 0, by omega⟩
          · rw [hc2]; exact hcond.1
          · rw [hc3]; exact hcond.2
        · rw [if_neg hcond] at h1
          simp at h1
      · obtain ⟨g1, g2, g3, g4, g5, i, hi⟩ := ih (cur + 1) c tr te h2
        exact ⟨g1, g2, g3, g4, g5, i + 1, by omega⟩
    · rw [if_neg hc] at h
      simp at h

/-- C5 amended: every fitted window of the walk-forward loop has a
training set consisting of all rows strictly before the window start (an
expanding window reaching back to the start of the panel, not a rolling
train_years window), a test set of the rows in
[start, start + test_years), strictly more than 100 train rows and
strictly more than 20 test rows (so windows with exactly 100 train rows or
exactly 20 test rows are also skipped), and a start lying a whole number
of years at or after min + train_years with start + test_years <= max. -/
theorem C5_amended (times : List ℤ) (a b c : ℤ) (tr te : List ℤ)
    (hmem : (c, tr, te) ∈ time_series_split_validation times a b) :
    tr = times.filter (fun t => t < c) ∧
    te = times.filter (fun t => c ≤ t ∧ t < c + b) ∧
    100 < tr.length ∧ 20 < te.length ∧
    ∃ mn mx, times.min? = some mn ∧ times.max? = some mx ∧ c + b ≤ mx ∧
      ∃ i : ℕ, c = mn + a + i := by
  unfold time_series_split_validation at hmem
  cases h1 : times.min? with
  | none => rw [h1] at hmem; simp at hmem
  | some mn =>
    cases h2 : times.max? with
    | none => rw [h1, h2] at hmem; simp at hmem
    | some mx =>
      rw [h1, h2] at hmem
      obtain ⟨g1, g2, g3, g4, g5, i, hi⟩ :=
        splitLoop_mem times b mx _ (mn + a) c tr te hmem
      exact ⟨g1, g2, g3, g4, ⟨mn, mx, rfl, rfl, g5, i, hi⟩⟩

set_option maxRecDepth 40000 in
/-- C5 counterexample: on the concrete panel, the second fitted window
starts at year 4 but its training set still contains rows from year 0,
which lies before the rolling window start 4 - 3 = 1: the loop trains on
all data since the start of the panel. -/
theorem C5_counterexample :
    ((0 : ℤ) ∈ ((time_series_split_validation timesC5 3 1).getD 1 (0, [], [])).2.1) ∧
    ((time_series_split_validation timesC5 3 1).getD 1 (0, [], [])).1 = 4 ∧
    ¬((4 : ℤ) - 3 ≤ 0) := by
  decide

set_option maxRecDepth 40000 in
/-- C5 amended, witness: the first fitted window of the concrete panel has
more than 100 training rows. -/
theorem C5_amended_witness :
    100 < (((time_series_split_validation timesC5 3 1).getD 0 (0, [], [])).2.1).length :=
  (C5_amended timesC5 3 1 _ _ _
    (by decide : ((time_series_split_validation timesC5 3 1).getD 0 (0, [], [])) ∈
      time_series_split_validation timesC5 3 1)).2.2.1

/-! ## Claim C6: which transforms mutate the table they receive -/

theorem find?_isSome_map_fst (f : String × Col → String × Col)
    (hf : ∀ p, (f p).1 = p.1) (n : String) :
    ∀ l : List (String × Col),
      ((l.map f).find? (fun p => p.1 == n)).isSome =
        (l.find? (fun p => p.1 == n)).isSome
  | [] => rfl
  | a :: t => by
      rw [List.map_cons]
      by_cases ha : (a.1 == n) = true
      · have haf : ((f a).1 == n) = true := by rw [hf]; exact ha
        rw [find?_cons_pos (fun (p : String × Col) => p.1 == n) (f a) _ haf,
          find?_cons_pos (fun (p : String × Col) => p.1 == n) a _ ha]
        rfl
      · have ha' : (a.1 == n) = false := by simpa using ha
        have haf : ((f a).1 == n) = false := by rw [hf]; exact ha'
        rw [find?_cons_neg (fun (p : String × Col) => p.1 == n) (f a) _ haf,
          find?_cons_neg (fun (p : String × Col) => p.1 == n) a _ ha']
        exact find?_isSome_map_fst f hf n t

theorem prepFillStep_hasCol (df : DF) (n : String) :
    (prepFillStep df).hasCol n = df.hasCol n := by
  unfold prepFillStep DF.hasCol DF.getCol?
  simp only [Option.isSome_map']
  refine find?_isSome_map_fst _ ?_ n df.cols
  intro p
  by_cases h : (p.1 == "date") = true
  · rw [if_pos h]
  · rw [if_neg h]

theorem prepDateStep_hasCol_ne (now : ℝ) (df : DF) {m : String} (hm : m ≠ "date") :
    (prepDateStep now df).hasCol m = df.hasCol m := by
  unfold prepDateStep
  by_cases h : df.hasCol "date" = true
  · rw [if_pos h, DF.hasCol_setCol_ne _ _ hm]
  · rw [if_neg h, DF.hasCol_setCol_ne _ _ hm]

theorem prepLeverageStep_some_hasCol_lev (df d : DF)
    (h : prepLeverageStep df = some d) : d.hasCol "leverage" = true := by
  unfold prepLeverageStep at h
  by_cases h1 : (!df.hasCol "leverage") = true
  · rw [if_pos h1] at h
    by_cases h2 : (df.hasCol "total_debt" && df.hasCol "total_assets") = true
    · rw [if_pos h2] at h
      rw [← Option.some.inj h]
      show ((df.setCol "leverage" _).setCol "leverage" _).hasCol "leverage" = true
      exact DF.hasCol_setCol_self _ _ _
    · rw [if_neg h2] at h
      exact absurd h (by simp)
  · rw [if_neg h1] at h
    rw [← Option.some.inj h]
    simpa using h1

theorem prepCurrentStep_hasCol_ne (df : DF) {m : String} (hm : m ≠ "current_ratio") :
    (prepCurrentStep df).hasCol m = df.hasCol m := by
  unfold prepCurrentStep
  by_cases h : (!df.hasCol "current_ratio" && df.hasCol "current_assets" &&
      df.hasCol "current_liabilities") = true
  · rw [if_pos h]
    show ((df.setCol "current_ratio" _).setCol "current_ratio" _).hasCol m = _
    rw [DF.hasCol_setCol_ne _ _ hm, DF.hasCol_setCol_ne _ _ hm]
  · rw [if_neg h]

theorem prepRoaStep_some_hasCol_ne (df d : DF) (h : prepRoaStep df = some d)
    {m : String} (hm : m ≠ "roa") : d.hasCol m = df.hasCol m := by
  unfold prepRoaStep at h
  by_cases h1 : (!df.hasCol "roa" || (df.getColD "roa").all (fun v => v.isNan)) = true
  · rw [if_pos h1] at h
    by_cases h2 : (df.hasCol "net_income" && df.hasCol "total_assets") = true
    · rw [if_pos h2] at h
      rw [← Option.some.inj h]
      show ((df.setCol "roa" _).setCol "roa" _).hasCol m = _
      rw [DF.hasCol_setCol_ne _ _ hm, DF.hasCol_setCol_ne _ _ hm]
    · rw [if_neg h2] at h
      exact absurd h (by simp)
  · rw [if_neg h1] at h
    rw [← Option.some.inj h]

theorem prepRevStep_of_not_rebind (df : DF) (h : prepRebindCond df = false) :
    prepRevStep df = some df := by
  unfold prepRevStep
  rw [if_neg (by simp [h])]

theorem prepEquityStep_hasCol_ne (df : DF) {m : String} (hm : m ≠ "equity_value") :
    (prepEquityStep df).hasCol m = df.hasCol m := by
  unfold prepEquityStep
  by_cases h : (!df.hasCol "equity_value") = true
  · rw [if_pos h, DF.hasCol_setCol_ne _ _ hm]
  · rw [if_neg h]

theorem prepDebtStep_hasCol_ne (df : DF) {m : String} (hm : m ≠ "debt_value") :
    (prepDebtStep df).hasCol m = df.hasCol m := by
  unfold prepDebtStep
  by_cases h : (!df.hasCol "debt_value") = true
  · rw [if_pos h, DF.hasCol_setCol_ne _ _ hm]
  · rw [if_neg h]

/-- When all three fallible steps return, prepare_data_for_engineering is
the composition of the remaining steps, with the caller's table frozen at
the roa step whenever the revenue_growth branch rebinds the local. -/
theorem prepare_steps_char (now : ℝ) (df : DF) (d2 d4 d5 : DF)
    (hL : prepLeverageStep (prepDateStep now df) = some d2)
    (hR : prepRoaStep (prepCurrentStep d2) = some d4)
    (hV : prepRevStep d4 = some d5) :
    prepare_data_for_engineering now df =
      (if prepRebindCond d4 then d4
       else prepFillStep (prepDebtStep (prepEquityStep d5)),
       some (prepFillStep (prepDebtStep (prepEquityStep d5)))) := by
  unfold prepare_data_for_engineering
  dsimp only []
  rw [hL]
  dsimp only []
  rw [hR]
  dsimp only []
  rw [hV]

theorem prepare_mutates_leverage (now : ℝ) (df : DF)
    (_h : df.hasCol "leverage" = false)
    (hok : ((prepare_data_for_engineering now df).2).isSome = true) :
    ((prepare_data_for_engineering now df).1).hasCol "leverage" = true := by
  rcases hL : prepLeverageStep (prepDateStep now df) with _ | d2
  · have hpair : prepare_data_for_engineering now df = (prepDateStep now df, none) := by
      unfold prepare_data_for_engineering
      dsimp only []
      rw [hL]
    rw [hpair] at hok
    exact absurd hok (by simp)
  · rcases hR : prepRoaStep (prepCurrentStep d2) with _ | d4
    · have hpair : prepare_data_for_engineering now df = (prepCurrentStep d2, none) := by
        unfold prepare_data_for_engineering
        dsimp only []
        rw [hL]
        dsimp only []
        rw [hR]
      rw [hpair] at hok
      exact absurd hok (by simp)
    · rcases hV : prepRevStep d4 with _ | d5
      · have hpair : prepare_data_for_engineering now df = (d4, none) := by
          unfold prepare_data_for_engineering
          dsimp only []
          rw [hL]
          dsimp only []
          rw [hR]
          dsimp only []
          rw [hV]
        rw [hpair] at hok
        exact absurd hok (by simp)
      · have hd4 : d4.hasCol "leverage" = true := by
          rw [prepRoaStep_some_hasCol_ne _ _ hR (by decide),
            prepCurrentStep_hasCol_ne _ (by decide)]
          exact prepLeverageStep_some_hasCol_lev _ _ hL
        rw [prepare_steps_char now df d2 d4 d5 hL hR hV]
        by_cases hreb : prepRebindCond d4 = true
        · show DF.hasCol (if prepRebindCond d4 = true then d4 else _) "leverage" = true
          rw [if_pos hreb]
          exact hd4
        · show DF.hasCol (if prepRebindCond d4 = true then d4 else _) "leverage" = true
          rw [if_neg hreb]
          rw [prepFillStep_hasCol, prepDebtStep_hasCol_ne _ (by decide),
            prepEquityStep_hasCol_ne _ (by decide)]
          have h5 : d5 = d4 := by
            have h54 := prepRevStep_of_not_rebind d4 (by simpa using hreb)
            rw [h54] at hV
            exact (Option.some.inj hV).symm
          rw [h5]
          exact hd4

/-- C6 counterexample: prepare_data_for_engineering mutates the table it
receives: on a concrete table without a leverage column (and with
revenue_growth present, so no branch rebinds the local), the caller's
table after the call differs from the table passed in. -/
theorem C6_counterexample :
    (prepare_data_for_engineering 0 dfC6).1 ≠ dfC6 := by
  intro heq
  have h1 : ((prepare_data_for_engineering 0 dfC6).1).hasCol "leverage" = true :=
    prepare_mutates_leverage 0 dfC6 rfl (by rfl)
  rw [heq] at h1
  exact absurd h1 (by rw [show dfC6.hasCol "leverage" = false from rfl]; simp)

/-- C6 amended: every AcademicFeatureEngineer transform copies its input
first, so the caller's table is unchanged after the call; but
prepare_data_for_engineering writes derived columns into the table it
received: whenever the call returns (it raises KeyError when a branch
runs with an operand column such as total_debt or total_assets missing,
mutating only the columns already written), a caller's table that lacked
a leverage column has gained one in place. -/
theorem C6_amended :
    (∀ df : DF, (calculate_naive_distance_to_default_run df).1 = df) ∧
    (∀ df : DF, (create_accounting_features_run df).1 = df) ∧
    (∀ (level : ℝ) (df : DF), (winsorize_variables_run level df).1 = df) ∧
    (∀ df : DF, (create_interaction_features_run df).1 = df) ∧
    (∀ s : Series, (transform_target_variable_run s).1 = s) ∧
    (∀ (now : ℝ) (df : DF), df.hasCol "leverage" = false →
      ((prepare_data_for_engineering now df).2).isSome = true →
      ((prepare_data_for_engineering now df).1).hasCol "leverage" = true) :=
  ⟨fun _ => rfl, fun _ => rfl, fun _ _ => rfl, fun _ => rfl, fun _ => rfl,
    prepare_mutates_leverage⟩

/-- C6 amended, witness: on a concrete table with the operand columns
present but no leverage column, the call returns and the caller's table
has gained a leverage column in place. -/
theorem C6_amended_witness :
    ((prepare_data_for_engineering 0 dfC6).1).hasCol "leverage" = true :=
  C6_amended.2.2.2.2.2 0 dfC6 rfl (by rfl)

/-! ## Claims C4 and C10: the Fama-MacBeth fitter -/

theorem famaMacbethCoeffs_mem
    (ols : List (List ℝ) → List ℝ → Option (FVal × List FVal))
    (k : ℕ) (panel : List FMRow) (t : ℕ) (c : FVal) (fs : List FVal)
    (h : (t, c, fs) ∈ famaMacbethCoeffs ols k panel) :
    10 ≤ (panel.filter (fun r => r.time == t)).length ∧
    k < ((panel.filter (fun r => r.time == t)).filter
      (fun r => r.feats.all (fun v => !v.isNan))).length := by
  unfold famaMacbethCoeffs at h
  obtain ⟨u, _hu, hu2⟩ := List.mem_filterMap.mp h
  dsimp only [] at hu2
  split at hu2
  · exact absurd hu2 (by simp)
  · rename_i h10
    split at hu2
    · rename_i hB
      have htu : t = u := by
        rcases ho : ols (((panel.filter (fun r => r.time == u)).filter
            (fun r => r.feats.all (fun v => !v.isNan))).map
              (fun r => r.feats.map FVal.toReal))
            (((panel.filter (fun r => r.time == u)).filter
              (fun r => !r.target.isNan)).map (fun r => r.target.toReal)) with _ | c'
        · rw [ho] at hu2
          simp at hu2
        · rw [ho] at hu2
          simp only [Option.map_some', Option.some.injEq] at hu2
          exact congrArg Prod.fst hu2.symm
      subst htu
      constructor
      · omega
      · have := hB.2
        rwa [List.length_map] at this
    · exact absurd hu2 (by simp)

theorem fit_fama_macbeth_getD
    (ols : List (List ℝ) → List ℝ → Option (FVal × List FVal))
    (tcdf : ℕ → ℝ → ℝ) (k : ℕ) (panel : List FMRow) (j : ℕ) (st : FMStats)
    (h : (fit_fama_macbeth ols tcdf k panel).getD j none = some st) :
    st = famaMacbethAggregate tcdf (usableCoeffs (famaMacbethCoeffs ols k panel) j) ∧
    1 < (usableCoeffs (famaMacbethCoeffs ols k panel) j).length ∧ j < k + 1 := by
  unfold fit_fama_macbeth at h
  rcases lt_or_ge j (k + 1) with hj | hj
  · rw [List.getD_eq_getElem?_getD, List.getElem?_map, List.getElem?_range hj] at h
    simp only [Option.map_some', Option.getD_some] at h
    by_cases hlen : 1 < (usableCoeffs (famaMacbethCoeffs ols k panel) j).length
    · rw [if_pos hlen] at h
      exact ⟨(Option.some.inj h).symm, hlen, hj⟩
    · rw [if_neg hlen] at h
      simp at h
  · rw [List.getD_eq_getElem?_getD, List.getElem?_map,
      List.getElem?_eq_none (by simpa using hj)] at h
    simp at h

/-- C4: the Fama-MacBeth fitter uses only periods with at least 10 rows
whose cross-sectional regression has strictly more (complete) observations
than features, and each reported entry carries the time-series mean of the
usable per-period coefficients, standard error = standard deviation over
the square root of the number of periods used, t = mean over standard
error, and a two-sided p-value from the Student-t CDF with
(periods - 1) degrees of freedom. -/
theorem C4_fama_macbeth
    (ols : List (List ℝ) → List ℝ → Option (FVal × List FVal))
    (tcdf : ℕ → ℝ → ℝ) (k : ℕ) (panel : List FMRow) :
    (∀ (t : ℕ) (c : FVal) (fs : List FVal),
      (t, c, fs) ∈ famaMacbethCoeffs ols k panel →
      10 ≤ (panel.filter (fun r => r.time == t)).length ∧
      k < ((panel.filter (fun r => r.time == t)).filter
        (fun r => r.feats.all (fun v => !v.isNan))).length) ∧
    (∀ (j : ℕ) (st : FMStats),
      (fit_fama_macbeth ols tcdf k panel).getD j none = some st →
      st.coefficient = sampleMean (usableCoeffs (famaMacbethCoeffs ols k panel) j) ∧
      st.std_error = sampleStd (usableCoeffs (famaMacbethCoeffs ols k panel) j) /
        Real.sqrt ((usableCoeffs (famaMacbethCoeffs ols k panel) j).length) ∧
      st.t_statistic = st.coefficient / st.std_error ∧
      st.p_value = 2 * (1 - tcdf
        ((usableCoeffs (famaMacbethCoeffs ols k panel) j).length - 1)
        |st.t_statistic|) ∧
      st.observations = (usableCoeffs (famaMacbethCoeffs ols k panel) j).length) := by
  constructor
  · intro t c fs h
    exact famaMacbethCoeffs_mem ols k panel t c fs h
  · intro j st h
    obtain ⟨hst, _hlen, _hj⟩ := fit_fama_macbeth_getD ols tcdf k panel j st h
    subst hst
    exact ⟨rfl, rfl, rfl, rfl, rfl⟩

/-- C4, witness: on a panel of ten rows in one period with no features,
the single coefficient row satisfies the period conditions. -/
theorem C4_fama_macbeth_witness :
    10 ≤ (panelW.filter (fun r => r.time == 0)).length :=
  ((C4_fama_macbeth olsW tcdfW 0 panelW).1 0 (FVal.fin 1) []
    (List.mem_singleton.mpr rfl)).1

/-- C10: entry j of the fit_fama_macbeth result is present exactly when at
least two periods produced a usable coefficient for that column; with one
or zero usable periods the entry is silently none (no placeholder), and
the result always has k + 1 entries with no error. -/
theorem C10_results_gate
    (ols : List (List ℝ) → List ℝ → Option (FVal × List FVal))
    (tcdf : ℕ → ℝ → ℝ) (k : ℕ) (panel : List FMRow) :
    (fit_fama_macbeth ols tcdf k panel).length = k + 1 ∧
    (∀ (j : ℕ) (st : FMStats),
      (fit_fama_macbeth ols tcdf k panel).getD j none = some st →
      2 ≤ (usableCoeffs (famaMacbethCoeffs ols k panel) j).length) ∧
    (∀ j : ℕ, j < k + 1 →
      (usableCoeffs (famaMacbethCoeffs ols k panel) j).length ≤ 1 →
      (fit_fama_macbeth ols tcdf k panel).getD j none = none) := by
  refine ⟨by simp [fit_fama_macbeth], ?_, ?_⟩
  · intro j st h
    exact (fit_fama_macbeth_getD ols tcdf k panel j st h).2.1
  · intro j hj hlen
    unfold fit_fama_macbeth
    rw [List.getD_eq_getElem?_getD, List.getElem?_map, List.getElem?_range hj]
    simp only [Option.map_some', Option.getD_some]
    rw [if_neg (by omega)]

/-- C10, witness: on the empty panel the intercept entry is absent. -/
theorem C10_results_gate_witness :
    (fit_fama_macbeth olsW tcdfW 0 []).getD 0 none = none :=
  (C10_results_gate olsW tcdfW 0 []).2.2 0 (by norm_num) (by decide)

/-! ## Claim C8: winsorization idempotence -/

theorem clip_fin_of_le {a b x : ℝ} (hax : a ≤ x) (hxb : x ≤ b) :
    FVal.clip (FVal.fin a) (FVal.fin b) (FVal.fin x) = FVal.fin x := by
  simp [FVal.clip, FVal.lowerBound, FVal.upperBound, FVal.isNan, FVal.fle, hax, hxb]

theorem clip_pinf (a b : ℝ) :
    FVal.clip (FVal.fin a) (FVal.fin b) FVal.pinf = FVal.fin b := by
  simp [FVal.clip, FVal.lowerBound, FVal.upperBound, FVal.isNan, FVal.fle]

theorem clip_minf {a b : ℝ} (hab : a ≤ b) :
    FVal.clip (FVal.fin a) (FVal.fin b) FVal.minf = FVal.fin a := by
  simp [FVal.clip, FVal.lowerBound, FVal.upperBound, FVal.isNan, FVal.fle, hab]

theorem clip_fin_eval {a b : ℝ} (hab : a ≤ b) (x : ℝ) :
    FVal.clip (FVal.fin a) (FVal.fin b) (FVal.fin x) = FVal.fin (min b (max a x)) := by
  by_cases h1 : a ≤ x
  · by_cases h2 : x ≤ b
    · rw [clip_fin_of_le h1 h2, max_eq_right h1, min_eq_right h2]
    · have hbx : b ≤ x := le_of_not_le h2
      rw [max_eq_right h1, min_eq_left hbx]
      simp [FVal.clip, FVal.lowerBound, FVal.upperBound, FVal.isNan, FVal.fle, h1, h2]
  · have hxa : x ≤ a := le_of_not_le h1
    rw [max_eq_left hxa, min_eq_right hab]
    simp [FVal.clip, FVal.lowerBound, FVal.upperBound, FVal.isNan, FVal.fle, h1, hab]

theorem clip_isNan_eq {a b : ℝ} (hab : a ≤ b) (v : FVal) :
    (FVal.clip (FVal.fin a) (FVal.fin b) v).isNan = v.isNan := by
  cases v with
  | fin x => rw [clip_fin_eval hab]; rfl
  | pinf => rw [clip_pinf]; rfl
  | minf => rw [clip_minf hab]; rfl
  | nan => rfl

theorem clip_idem {a b : ℝ} (hab : a ≤ b) (v : FVal) :
    FVal.clip (FVal.fin a) (FVal.fin b) (FVal.clip (FVal.fin a) (FVal.fin b) v) =
      FVal.clip (FVal.fin a) (FVal.fin b) v := by
  cases v with
  | fin x =>
    rw [clip_fin_eval hab x, clip_fin_eval hab]
    congr 1
    have h1 : a ≤ min b (max a x) := le_min hab (le_max_left a x)
    have h2 : min b (max a x) ≤ b := min_le_left _ _
    rw [max_eq_right h1, min_eq_right h2]
  | pinf =>
    rw [clip_pinf, clip_fin_of_le hab le_rfl]
  | minf =>
    rw [clip_minf hab, clip_fin_of_le le_rfl hab]
  | nan => rfl

theorem clip_mono {a b : ℝ} (hab : a ≤ b) :
    ∀ {v w : FVal}, FVal.fle v w →
      FVal.fle (FVal.clip (FVal.fin a) (FVal.fin b) v)
        (FVal.clip (FVal.fin a) (FVal.fin b) w) := by
  intro v w hvw
  cases v with
  | nan =>
    cases w with
    | nan => exact hvw
    | fin y => exact absurd hvw (by simp [FVal.fle])
    | pinf => exact absurd hvw (by simp [FVal.fle])
    | minf => exact absurd hvw (by simp [FVal.fle])
  | minf =>
    rw [clip_minf hab]
    cases w with
    | nan => trivial
    | fin y =>
      rw [clip_fin_eval hab]
      show a ≤ min b (max a y)
      exact le_min hab (le_max_left a y)
    | pinf =>
      rw [clip_pinf]
      exact hab
    | minf =>
      rw [clip_minf hab]
      exact le_rfl
  | pinf =>
    cases w with
    | nan => rw [clip_pinf]; trivial
    | fin y => exact absurd hvw (by simp [FVal.fle])
    | minf => exact absurd hvw (by simp [FVal.fle])
    | pinf =>
      rw [clip_pinf]
      exact le_rfl
  | fin x =>
    cases w with
    | nan => rw [clip_fin_eval hab]; trivial
    | minf => exact absurd hvw (by simp [FVal.fle])
    | pinf =>
      rw [clip_fin_eval hab, clip_pinf]
      show min b (max a x) ≤ b
      exact min_le_left _ _
    | fin y =>
      rw [clip_fin_eval hab, clip_fin_eval hab]
      show min b (max a x) ≤ min b (max a y)
      exact min_le_min le_rfl (max_le_max le_rfl hvw)

theorem clip_nan_nan (v : FVal) : FVal.clip FVal.nan FVal.nan v = v := by
  cases v <;>
    simp [FVal.clip, FVal.lowerBound, FVal.upperBound, FVal.isNan]

theorem clipU_minf (b : ℝ) :
    FVal.clip FVal.nan (FVal.fin b) FVal.minf = FVal.minf := by
  simp [FVal.clip, FVal.lowerBound, FVal.upperBound, FVal.isNan, FVal.fle]

theorem clipU_pinf (b : ℝ) :
    FVal.clip FVal.nan (FVal.fin b) FVal.pinf = FVal.fin b := by
  simp [FVal.clip, FVal.lowerBound, FVal.upperBound, FVal.isNan, FVal.fle]

theorem clipU_fin (b x : ℝ) :
    FVal.clip FVal.nan (FVal.fin b) (FVal.fin x) = FVal.fin (min b x) := by
  by_cases h : x ≤ b
  · rw [min_eq_right h]
    simp [FVal.clip, FVal.lowerBound, FVal.upperBound, FVal.isNan, FVal.fle, h]
  · have hbx : b ≤ x := le_of_not_le h
    rw [min_eq_left hbx]
    simp [FVal.clip, FVal.lowerBound, FVal.upperBound, FVal.isNan, FVal.fle, h]

theorem clipL_pinf (a : ℝ) :
    FVal.clip (FVal.fin a) FVal.nan FVal.pinf = FVal.pinf := by
  simp [FVal.clip, FVal.lowerBound, FVal.upperBound, FVal.isNan, FVal.fle]

theorem clipL_minf (a : ℝ) :
    FVal.clip (FVal.fin a) FVal.nan FVal.minf = FVal.fin a := by
  simp [FVal.clip, FVal.lowerBound, FVal.upperBound, FVal.isNan, FVal.fle]

theorem clipL_fin (a x : ℝ) :
    FVal.clip (FVal.fin a) FVal.nan (FVal.fin x) = FVal.fin (max a x) := by
  by_cases h : a ≤ x
  · rw [max_eq_right h]
    simp [FVal.clip, FVal.lowerBound, FVal.upperBound, FVal.isNan, FVal.fle, h]
  · have hxa : x ≤ a := le_of_not_le h
    rw [max_eq_left hxa]
    simp [FVal.clip, FVal.lowerBound, FVal.upperBound, FVal.isNan, FVal.fle, h]

/-- clip preserves NaN-ness for every valid bound pair. -/
theorem clip_isNan_g : ∀ {lo hi : FVal}, goodBounds lo hi →
    ∀ v : FVal, (FVal.clip lo hi v).isNan = v.isNan := by
  intro lo hi hg v
  cases lo with
  | fin a =>
    cases hi with
    | fin b => exact clip_isNan_eq hg v
    | nan =>
      cases v with
      | fin x => rw [clipL_fin]; rfl
      | pinf => rw [clipL_pinf]
      | minf => rw [clipL_minf]; rfl
      | nan => rfl
    | pinf => exact absurd hg (by simp [goodBounds])
    | minf => exact absurd hg (by simp [goodBounds])
  | nan =>
    cases hi with
    | fin b =>
      cases v with
      | fin x => rw [clipU_fin]; rfl
      | pinf => rw [clipU_pinf]; rfl
      | minf => rw [clipU_minf]
      | nan => rfl
    | nan => rw [clip_nan_nan]
    | pinf => exact absurd hg (by simp [goodBounds])
    | minf => exact absurd hg (by simp [goodBounds])
  | pinf => cases hi <;> exact absurd hg (by simp [goodBounds])
  | minf => cases hi <;> exact absurd hg (by simp [goodBounds])

/-- clip is idempotent for every valid bound pair. -/
theorem clip_idem_g : ∀ {lo hi : FVal}, goodBounds lo hi →
    ∀ v : FVal, FVal.clip lo hi (FVal.clip lo hi v) = FVal.clip lo hi v := by
  intro lo hi hg v
  cases lo with
  | fin a =>
    cases hi with
    | fin b => exact clip_idem hg v
    | nan =>
      cases v with
      | fin x =>
        rw [clipL_fin, clipL_fin, ← max_assoc, max_self]
      | pinf => rw [clipL_pinf, clipL_pinf]
      | minf => rw [clipL_minf, clipL_fin, max_self]
      | nan => rfl
    | pinf => exact absurd hg (by simp [goodBounds])
    | minf => exact absurd hg (by simp [goodBounds])
  | nan =>
    cases hi with
    | fin b =>
      cases v with
      | fin x =>
        rw [clipU_fin, clipU_fin, ← min_assoc, min_self]
      | pinf => rw [clipU_pinf, clipU_fin, min_self]
      | minf => rw [clipU_minf, clipU_minf]
      | nan => rfl
    | nan => rw [clip_nan_nan, clip_nan_nan]
    | pinf => exact absurd hg (by simp [goodBounds])
    | minf => exact absurd hg (by simp [goodBounds])
  | pinf => cases hi <;> exact absurd hg (by simp [goodBounds])
  | minf => cases hi <;> exact absurd hg (by simp [goodBounds])

/-- clip is monotone for every valid bound pair. -/
theorem clip_mono_g : ∀ {lo hi : FVal}, goodBounds lo hi →
    ∀ {v w : FVal}, FVal.fle v w →
      FVal.fle (FVal.clip lo hi v) (FVal.clip lo hi w) := by
  intro lo hi hg v w hvw
  cases lo with
  | fin a =>
    cases hi with
    | fin b => exact clip_mono hg hvw
    | nan =>
      cases v with
      | nan =>
        cases w with
        | nan => exact hvw
        | fin y => exact absurd hvw (by simp [FVal.fle])
        | pinf => exact absurd hvw (by simp [FVal.fle])
        | minf => exact absurd hvw (by simp [FVal.fle])
      | minf =>
        rw [clipL_minf]
        cases w with
        | nan => trivial
        | fin y =>
          rw [clipL_fin]
          show a ≤ max a y
          exact le_max_left a y
        | pinf => rw [clipL_pinf]; trivial
        | minf => rw [clipL_minf]; exact le_rfl
      | pinf =>
        cases w with
        | nan => rw [clipL_pinf]; trivial
        | fin y => exact absurd hvw (by simp [FVal.fle])
        | minf => exact absurd hvw (by simp [FVal.fle])
        | pinf => rw [clipL_pinf]; trivial
      | fin x =>
        cases w with
        | nan => rw [clipL_fin]; trivial
        | minf => exact absurd hvw (by simp [FVal.fle])
        | pinf => rw [clipL_fin, clipL_pinf]; trivial
        | fin y =>
          rw [clipL_fin, clipL_fin]
          show max a x ≤ max a y
          exact max_le_max le_rfl hvw
    | pinf => exact absurd hg (by simp [goodBounds])
    | minf => exact absurd hg (by simp [goodBounds])
  | nan =>
    cases hi with
    | fin b =>
      cases v with
      | nan =>
        cases w with
        | nan => exact hvw
        | fin y => exact absurd hvw (by simp [FVal.fle])
        | pinf => exact absurd hvw (by simp [FVal.fle])
        | minf => exact absurd hvw (by simp [FVal.fle])
      | minf =>
        rw [clipU_minf]
        cases w with
        | nan => trivial
        | fin y => rw [clipU_fin]; trivial
        | pinf => rw [clipU_pinf]; trivial
        | minf => rw [clipU_minf]; trivial
      | pinf =>
        cases w with
        | nan => rw [clipU_pinf]; trivial
        | fin y => exact absurd hvw (by simp [FVal.fle])
        | minf => exact absurd hvw (by simp [FVal.fle])
        | pinf => rw [clipU_pinf]; exact le_rfl
      | fin x =>
        cases w with
        | nan => rw [clipU_fin]; trivial
        | minf => exact absurd hvw (by simp [FVal.fle])
        | pinf =>
          rw [clipU_fin, clipU_pinf]
          show min b x ≤ b
          exact min_le_left b x
        | fin y =>
          rw [clipU_fin, clipU_fin]
          show min b x ≤ min b y
          exact min_le_min le_rfl hvw
    | nan =>
      rw [clip_nan_nan, clip_nan_nan]
      exact hvw
    | pinf => exact absurd hg (by simp [goodBounds])
    | minf => exact absurd hg (by simp [goodBounds])
  | pinf => cases hi <;> exact absurd hg (by simp [goodBounds])
  | minf => cases hi <;> exact absurd hg (by simp [goodBounds])

/-- At an exact quantile position k = q*(n-1), the interpolated quantile
is the k-th order statistic when that statistic is finite, and NaN when it
is infinite: the interpolation lo + (hi - lo)*0 evaluates to
inf + (inf - inf)*0 = inf + NaN = NaN there. -/
theorem quantileF_exact_g (q : ℝ) (xs : Col) (hne : xs ≠ []) (k : ℕ)
    (hk : (k : ℝ) = q * ((xs.length : ℝ) - 1)) :
    quantileF q xs =
      expandBound ((List.insertionSort FVal.fle xs).getD k FVal.nan) := by
  cases xs with
  | nil => exact absurd rfl hne
  | cons a t =>
    simp only [quantileF]
    rw [← hk, Nat.floor_natCast, Nat.ceil_natCast, sub_self]
    cases hcase : (List.insertionSort FVal.fle (a :: t)).getD k FVal.nan with
    | fin x =>
      rw [FVal.fin_sub, FVal.fin_mul, FVal.fin_add]
      show FVal.fin (x + (x - x) * 0) = expandBound (FVal.fin x)
      norm_num [expandBound]
    | pinf => rfl
    | minf => rfl
    | nan => rfl

theorem insertionSort_map_mono (f : FVal → FVal)
    (hmono : ∀ a b, FVal.fle a b → FVal.fle (f a) (f b)) (xs : Col) :
    List.insertionSort FVal.fle (xs.map f) =
      (List.insertionSort FVal.fle xs).map f := by
  have hperm : List.Perm (List.insertionSort FVal.fle (xs.map f))
      ((List.insertionSort FVal.fle xs).map f) :=
    (List.perm_insertionSort _ _).trans
      (((List.perm_insertionSort FVal.fle xs).symm).map f)
  exact List.eq_of_perm_of_sorted hperm (List.sorted_insertionSort _ _)
    (List.Pairwise.map f hmono (List.sorted_insertionSort FVal.fle xs))

theorem nonNanCells_map_clip_g {lo hi : FVal} (hg : goodBounds lo hi) (xs : Col) :
    nonNanCells (xs.map (FVal.clip lo hi)) =
      (nonNanCells xs).map (FVal.clip lo hi) := by
  unfold nonNanCells
  rw [List.filter_map]
  congr 1
  apply List.filter_congr
  intro v _
  show (!(FVal.clip lo hi v).isNan) = (!v.isNan)
  rw [clip_isNan_g hg v]

theorem winsorizeCol_eq (level : ℝ) (xs : Col) :
    winsorizeCol level xs =
      xs.map (FVal.clip (quantileF level (nonNanCells xs))
        (quantileF (1 - level) (nonNanCells xs))) := rfl

theorem winsorizeCol_idem (level : ℝ) (xs : Col) (h0 : 0 < level)
    (hh : level < 1 / 2) (hq : quantExact level xs) :
    winsorizeCol level (winsorizeCol level xs) = winsorizeCol level xs := by
  obtain ⟨⟨kl, hkl⟩, ⟨kh, hkh⟩⟩ := hq
  have hm1 : 1 ≤ (nonNanCells xs).length := by
    by_contra hc
    push_neg at hc
    have hm0 : (nonNanCells xs).length = 0 := by omega
    rw [hm0] at hkl
    have hkl' : (kl : ℝ) = -level := by rw [hkl]; ring
    have hge : (0 : ℝ) ≤ (kl : ℝ) := Nat.cast_nonneg kl
    nlinarith
  have hmr : (1 : ℝ) ≤ ((nonNanCells xs).length : ℝ) := by exact_mod_cast hm1
  have hne : nonNanCells xs ≠ [] := by
    intro hcon
    rw [hcon] at hm1
    simp at hm1
  have hklm : kl < (nonNanCells xs).length := by
    have h1 : (kl : ℝ) < ((nonNanCells xs).length : ℝ) := by
      rw [hkl]; nlinarith
    exact_mod_cast h1
  have hkhm : kh < (nonNanCells xs).length := by
    have h1 : (kh : ℝ) < ((nonNanCells xs).length : ℝ) := by
      rw [hkh]; nlinarith
    exact_mod_cast h1
  have hklkh : kl ≤ kh := by
    have h1 : (kl : ℝ) ≤ (kh : ℝ) := by
      rw [hkl, hkh]; nlinarith
    exact_mod_cast h1
  have hb1 : kl < (List.insertionSort FVal.fle (nonNanCells xs)).length := by
    rw [List.length_insertionSort]; exact hklm
  have hb2 : kh < (List.insertionSort FVal.fle (nonNanCells xs)).length := by
    rw [List.length_insertionSort]; exact hkhm
  obtain ⟨vlo, hvlo⟩ : ∃ v, (List.insertionSort FVal.fle
      (nonNanCells xs)).getD kl FVal.nan = v := ⟨_, rfl⟩
  obtain ⟨vhi, hvhi⟩ : ∃ v, (List.insertionSort FVal.fle
      (nonNanCells xs)).getD kh FVal.nan = v := ⟨_, rfl⟩
  have hvlo' : (List.insertionSort FVal.fle (nonNanCells xs))[kl] = vlo := by
    rw [← hvlo, List.getD_eq_getElem?_getD, List.getElem?_eq_getElem hb1]
    rfl
  have hvhi' : (List.insertionSort FVal.fle (nonNanCells xs))[kh] = vhi := by
    rw [← hvhi, List.getD_eq_getElem?_getD, List.getElem?_eq_getElem hb2]
    rfl
  have hmemlo : vlo ∈ nonNanCells xs := by
    rw [← hvlo']
    exact (List.perm_insertionSort FVal.fle (nonNanCells xs)).subset
      (List.getElem_mem hb1)
  have hmemhi : vhi ∈ nonNanCells xs := by
    rw [← hvhi']
    exact (List.perm_insertionSort FVal.fle (nonNanCells xs)).subset
      (List.getElem_mem hb2)
  have hnnlo : vlo.isNan = false := by
    have h2 := hmemlo
    rw [nonNanCells, List.mem_filter] at h2
    simpa using h2.2
  have hnnhi : vhi.isNan = false := by
    have h2 := hmemhi
    rw [nonNanCells, List.mem_filter] at h2
    simpa using h2.2
  have hrel : FVal.fle vlo vhi := by
    have h1 := List.Sorted.rel_get_of_le
      (List.sorted_insertionSort FVal.fle (nonNanCells xs))
      (show (⟨kl, hb1⟩ : Fin (List.insertionSort FVal.fle (nonNanCells xs)).length) ≤
        ⟨kh, hb2⟩ from hklkh)
    rw [List.get_eq_getElem, List.get_eq_getElem, hvlo', hvhi'] at h1
    exact h1
  have key : goodBounds (expandBound vlo) (expandBound vhi) ∧
      FVal.clip (expandBound vlo) (expandBound vhi) vlo = vlo ∧
      FVal.clip (expandBound vlo) (expandBound vhi) vhi = vhi := by
    cases vlo with
    | nan => simp [FVal.isNan] at hnnlo
    | fin A =>
      cases vhi with
      | nan => simp [FVal.isNan] at hnnhi
      | fin B =>
        have hAB : A ≤ B := by simpa [FVal.fle] using hrel
        refine ⟨?_, ?_, ?_⟩
        · show A ≤ B
          exact hAB
        · show FVal.clip (FVal.fin A) (FVal.fin B) (FVal.fin A) = FVal.fin A
          exact clip_fin_of_le le_rfl hAB
        · show FVal.clip (FVal.fin A) (FVal.fin B) (FVal.fin B) = FVal.fin B
          exact clip_fin_of_le hAB le_rfl
      | pinf =>
        refine ⟨trivial, ?_, ?_⟩
        · show FVal.clip (FVal.fin A) FVal.nan (FVal.fin A) = FVal.fin A
          rw [clipL_fin, max_self]
        · show FVal.clip (FVal.fin A) FVal.nan FVal.pinf = FVal.pinf
          exact clipL_pinf A
      | minf => exact absurd hrel (by simp [FVal.fle])
    | pinf =>
      cases vhi with
      | nan => simp [FVal.isNan] at hnnhi
      | fin B => exact absurd hrel (by simp [FVal.fle])
      | minf => exact absurd hrel (by simp [FVal.fle])
      | pinf => exact ⟨trivial, clip_nan_nan _, clip_nan_nan _⟩
    | minf =>
      cases vhi with
      | nan => simp [FVal.isNan] at hnnhi
      | fin B =>
        refine ⟨trivial, ?_, ?_⟩
        · show FVal.clip FVal.nan (FVal.fin B) FVal.minf = FVal.minf
          exact clipU_minf B
        · show FVal.clip FVal.nan (FVal.fin B) (FVal.fin B) = FVal.fin B
          rw [clipU_fin, min_self]
      | pinf => exact ⟨trivial, clip_nan_nan _, clip_nan_nan _⟩
      | minf => exact ⟨trivial, clip_nan_nan _, clip_nan_nan _⟩
  obtain ⟨hgb, hfixlo, hfixhi⟩ := key
  have hqlo := quantileF_exact_g level (nonNanCells xs) hne kl hkl
  have hqhi := quantileF_exact_g (1 - level) (nonNanCells xs) hne kh hkh
  rw [hvlo] at hqlo
  rw [hvhi] at hqhi
  have hwx : winsorizeCol level xs =
      xs.map (FVal.clip (expandBound vlo) (expandBound vhi)) := by
    rw [winsorizeCol_eq, hqlo, hqhi]
  have hkey : winsorizeCol level
        (xs.map (FVal.clip (expandBound vlo) (expandBound vhi))) =
      xs.map (FVal.clip (expandBound vlo) (expandBound vhi)) := by
    rw [winsorizeCol_eq, nonNanCells_map_clip_g hgb]
    have hne2 : (nonNanCells xs).map
        (FVal.clip (expandBound vlo) (expandBound vhi)) ≠ [] := by
      intro hcon
      exact hne (by simpa using hcon)
    have hkl2 : (kl : ℝ) = level *
        ((((nonNanCells xs).map
          (FVal.clip (expandBound vlo) (expandBound vhi))).length : ℝ) - 1) := by
      rw [List.length_map]; exact hkl
    have hkh2 : (kh : ℝ) = (1 - level) *
        ((((nonNanCells xs).map
          (FVal.clip (expandBound vlo) (expandBound vhi))).length : ℝ) - 1) := by
      rw [List.length_map]; exact hkh
    rw [quantileF_exact_g level _ hne2 kl hkl2,
      quantileF_exact_g (1 - level) _ hne2 kh hkh2]
    rw [insertionSort_map_mono _ (fun a b hab => clip_mono_g hgb hab)]
    have hmaplo : ((List.insertionSort FVal.fle (nonNanCells xs)).map
        (FVal.clip (expandBound vlo) (expandBound vhi))).getD kl FVal.nan = vlo := by
      rw [List.getD_eq_getElem?_getD, List.getElem?_map, List.getElem?_eq_getElem hb1]
      simp only [Option.map_some', Option.getD_some]
      rw [hvlo', hfixlo]
    have hmaphi : ((List.insertionSort FVal.fle (nonNanCells xs)).map
        (FVal.clip (expandBound vlo) (expandBound vhi))).getD kh FVal.nan = vhi := by
      rw [List.getD_eq_getElem?_getD, List.getElem?_map, List.getElem?_eq_getElem hb2]
      simp only [Option.map_some', Option.getD_some]
      rw [hvhi', hfixhi]
    rw [hmaplo, hmaphi, List.map_map]
    apply List.map_congr_left
    intro v _
    exact clip_idem_g hgb v
  rw [hwx, hkey]

/-- C8 amended: winsorization is idempotent at a given level provided
that for each winsorized column both quantile positions level*(m-1) and
(1-level)*(m-1) (m = number of non-missing cells) are whole numbers, so
that the quantiles fall exactly on order statistics (an infinite order
statistic there makes the interpolated bound NaN, so that side simply
does not clip); with fractional positions the linear interpolation moves
the bounds strictly inward on each pass, as the counterexample shows. -/
theorem C8_amended (level : ℝ) (df : DF) (h0 : 0 < level) (hh : level < 1 / 2)
    (hcols : ∀ p ∈ df.cols, winsorizeExclude.contains p.1 = false →
      quantExact level p.2) :
    winsorize_variables level (winsorize_variables level df) =
      winsorize_variables level df := by
  unfold winsorize_variables
  congr 1
  rw [List.map_map]
  apply List.map_congr_left
  intro p hp
  simp only [Function.comp_apply]
  by_cases hex : winsorizeExclude.contains p.1 = true
  · rw [if_pos hex, if_pos hex]
  · have hq := hcols p hp (by simpa using hex)
    rw [if_neg hex, if_neg hex]
    rw [winsorizeCol_idem level p.2 h0 hh hq]

/-- C8 amended, witness: a single-cell column (whose quantile positions
are both 0) is unchanged by re-winsorization at the 1 percent level. -/
theorem C8_amended_witness :
    winsorize_variables (1 / 100) (winsorize_variables (1 / 100) dfW8) =
      winsorize_variables (1 / 100) dfW8 :=
  C8_amended (1 / 100) dfW8 (by norm_num) (by norm_num) (by
    intro p hp hex
    rcases (by simpa [dfW8] using hp : p = ("x", [FVal.fin 7])) with rfl
    constructor
    · exact ⟨0, by norm_num [nonNanCells, FVal.isNan]⟩
    · exact ⟨0, by norm_num [nonNanCells, FVal.isNan]⟩)

theorem floor_three_quarters : ⌊(3 / 4 : ℝ)⌋₊ = 0 :=
  Nat.floor_eq_zero.mpr (by norm_num)

theorem ceil_three_quarters : ⌈(3 / 4 : ℝ)⌉₊ = 1 :=
  (Nat.ceil_eq_iff (by norm_num)).mpr (by norm_num)

theorem floor_nine_quarters : ⌊(9 / 4 : ℝ)⌋₊ = 2 :=
  (Nat.floor_eq_iff (by norm_num)).mpr (by norm_num)

theorem ceil_nine_quarters : ⌈(9 / 4 : ℝ)⌉₊ = 3 :=
  (Nat.ceil_eq_iff (by norm_num)).mpr (by norm_num)

theorem sort_C8_first :
    List.insertionSort FVal.fle [FVal.fin 0, FVal.fin 4, FVal.fin 8, FVal.fin 12] =
      [FVal.fin 0, FVal.fin 4, FVal.fin 8, FVal.fin 12] := by
  norm_num [List.insertionSort, List.orderedInsert, FVal.fle]

theorem sort_C8_second :
    List.insertionSort FVal.fle [FVal.fin 3, FVal.fin 4, FVal.fin 8, FVal.fin 9] =
      [FVal.fin 3, FVal.fin 4, FVal.fin 8, FVal.fin 9] := by
  norm_num [List.insertionSort, List.orderedInsert, FVal.fle]

theorem quant_C8_first_lo :
    quantileF (1 / 4 : ℝ) [FVal.fin 0, FVal.fin 4, FVal.fin 8, FVal.fin 12] =
      FVal.fin 3 := by
  simp only [quantileF]
  rw [sort_C8_first]
  norm_num [floor_three_quarters, ceil_three_quarters, FVal.fin_sub, FVal.fin_mul,
    FVal.fin_add]

theorem quant_C8_first_hi :
    quantileF (1 - 1 / 4 : ℝ) [FVal.fin 0, FVal.fin 4, FVal.fin 8, FVal.fin 12] =
      FVal.fin 9 := by
  simp only [quantileF]
  rw [sort_C8_first]
  norm_num [floor_nine_quarters, ceil_nine_quarters, FVal.fin_sub, FVal.fin_mul,
    FVal.fin_add]

theorem quant_C8_second_lo :
    quantileF (1 / 4 : ℝ) [FVal.fin 3, FVal.fin 4, FVal.fin 8, FVal.fin 9] =
      FVal.fin (15 / 4) := by
  simp only [quantileF]
  rw [sort_C8_second]
  norm_num [floor_three_quarters, ceil_three_quarters, FVal.fin_sub, FVal.fin_mul,
    FVal.fin_add]

theorem quant_C8_second_hi :
    quantileF (1 - 1 / 4 : ℝ) [FVal.fin 3, FVal.fin 4, FVal.fin 8, FVal.fin 9] =
      FVal.fin (33 / 4) := by
  simp only [quantileF]
  rw [sort_C8_second]
  norm_num [floor_nine_quarters, ceil_nine_quarters, FVal.fin_sub, FVal.fin_mul,
    FVal.fin_add]

theorem winsorizeCol_C8_first :
    winsorizeCol (1 / 4 : ℝ) [FVal.fin 0, FVal.fin 4, FVal.fin 8, FVal.fin 12] =
      [FVal.fin 3, FVal.fin 4, FVal.fin 8, FVal.fin 9] := by
  rw [winsorizeCol_eq]
  rw [show nonNanCells [FVal.fin 0, FVal.fin 4, FVal.fin 8, FVal.fin 12] =
    [FVal.fin 0, FVal.fin 4, FVal.fin 8, FVal.fin 12] from by
      norm_num [nonNanCells, FVal.isNan]]
  rw [quant_C8_first_lo, quant_C8_first_hi]
  norm_num [clip_fin_eval (show (3 : ℝ) ≤ 9 by norm_num)]

theorem winsorizeCol_C8_second :
    winsorizeCol (1 / 4 : ℝ) [FVal.fin 3, FVal.fin 4, FVal.fin 8, FVal.fin 9] =
      [FVal.fin (15 / 4), FVal.fin 4, FVal.fin 8, FVal.fin (33 / 4)] := by
  rw [winsorizeCol_eq]
  rw [show nonNanCells [FVal.fin 3, FVal.fin 4, FVal.fin 8, FVal.fin 9] =
    [FVal.fin 3, FVal.fin 4, FVal.fin 8, FVal.fin 9] from by
      norm_num [nonNanCells, FVal.isNan]]
  rw [quant_C8_second_lo, quant_C8_second_hi]
  norm_num [clip_fin_eval (show (15 / 4 : ℝ) ≤ 33 / 4 by norm_num)]

/-- C8 counterexample: at level 1/4 on the four-cell column 0, 4, 8, 12
the quartiles interpolate strictly between order statistics, and
winsorizing the already-winsorized table changes it again
(cell 0 moves from 3 to 3.75). -/
theorem C8_counterexample :
    winsorize_variables (1 / 4) (winsorize_variables (1 / 4) dfC8) ≠
      winsorize_variables (1 / 4) dfC8 := by
  have hW1 : winsorize_variables (1 / 4) dfC8 =
      ⟨["A", "B", "C", "D"],
        [("x", [FVal.fin 3, FVal.fin 4, FVal.fin 8, FVal.fin 9])]⟩ := by
    unfold winsorize_variables dfC8
    simp only [List.map_cons, List.map_nil]
    rw [if_neg (by decide)]
    rw [winsorizeCol_C8_first]
  have hW2 : winsorize_variables (1 / 4)
      (⟨["A", "B", "C", "D"],
        [("x", [FVal.fin 3, FVal.fin 4, FVal.fin 8, FVal.fin 9])]⟩ : DF) =
      ⟨["A", "B", "C", "D"],
        [("x", [FVal.fin (15 / 4), FVal.fin 4, FVal.fin 8, FVal.fin (33 / 4)])]⟩ := by
    unfold winsorize_variables
    simp only [List.map_cons, List.map_nil]
    rw [if_neg (by decide)]
    rw [winsorizeCol_C8_second]
  rw [hW1, hW2]
  intro heq
  simp only [DF.mk.injEq, List.cons.injEq, Prod.mk.injEq, FVal.fin.injEq] at heq
  norm_num at heq

end

